import Mathlib

/-!
Shallow embedding of gold_crowdsale/withdrawals/models.py.

Django model rows become Lean structures; TextChoices values stay the strings
the source stores.  Each processing method is translated as a function from
the current persisted record (plus the tables and external responses it
reads) to the persisted record after the call: a field assignment in the
source only reaches the returned value when the source also reaches a
corresponding save call, and a branch where the source raises before any
save returns the input unchanged.  External collaborators (chain RPC
clients, rate conversion, clock) are parameters gathered in an Ext record;
the float-based token-to-ETH conversion of process_gas_refill is abstracted
as the external token_value_eth field, and timedelta windows are measured in
hours on an integer clock.
-/

namespace GoldCrowdsale

/-- Source constant ERC20_CURRENCIES (models.py line 20). -/
def ERC20_CURRENCIES : List String := ["USDT", "USDC"]

/-- Source constant NATIVE_CURRENCIES (models.py line 21). -/
def NATIVE_CURRENCIES : List String := ["ETH", "BTC"]

/-- Source constant AVAILABLE_CURRENCIES (models.py line 22). -/
def AVAILABLE_CURRENCIES : List String := NATIVE_CURRENCIES ++ ERC20_CURRENCIES

/-- Row of the WithdrawCycle model.  The currencies column stores str(list);
we keep the list itself. -/
structure WithdrawCycle where
  id : Nat
  currencies : List String
  status : String
  deriving Repr, DecidableEq

/-- Row of the WithdrawTransaction model.  Foreign keys are ids; account is
the TokenPurchase id. -/
structure WithdrawTransaction where
  id : Nat
  withdraw_cycle : Nat
  account : Nat
  amount : Option Int
  currency : String
  status : String
  tx_type : String
  tx_hash : Option String
  gas_tx_count : Option Nat
  gas_price_erc20 : Option Int
  error_message : String
  relayed_at : Option Int
  deriving Repr, DecidableEq

/-- Row of the TransactionManager model; tx_to_process is the id of the
currently authorized transaction. -/
structure TransactionManager where
  id : Nat
  withdraw_cycle : Nat
  account : Option Nat
  tx_to_process : Option Nat
  queue_type : String
  completed : Bool
  deriving Repr, DecidableEq

/-- Receipt lookup outcome for web3 getTransactionReceipt: the
TransactionNotFound exception (caught by the source), a receipt whose status
field equals zero or not, or any other exception (uncaught, so nothing is
persisted). -/
inductive ReceiptResult where
  | notFound
  | found (statusZero : Bool)
  | raised
  deriving Repr, DecidableEq

/-- External responses consumed by the processing and confirmation methods:
chain gateway results, rate-converted token values, and the clock. -/
structure Ext where
  btc_withdraw_address : Option String
  btc_fetch_ok : Bool
  btc_unspent_value : Int
  btc_relay_fee : Int
  gas_price : Int
  eth_balance : Int
  token_balance : String → Int
  token_value_eth : String → Int
  send_result : Except String String
  receipt : ReceiptResult
  btc_confirmations : Except Unit Int
  now : Int

/-- Parameters of a UTXO broadcast attempt: the destination key of
output_params and the spent value net of the relay fee (the source divides
it by DECIMALS for display units; the integer numerator is kept). -/
structure SendAttempt where
  to_key : Option String
  value : Int
  deriving Repr, DecidableEq

/-- Replace every row whose id matches by the given row. -/
def replaceById (txs : List WithdrawTransaction) (i : Nat)
    (t : WithdrawTransaction) : List WithdrawTransaction :=
  txs.map (fun u => if u.id == i then t else u)

/-- WithdrawTransaction.process_withdraw_btc (models.py lines 177-236).
Returns the persisted row and the broadcast attempt, if one was made.  When
the configured withdraw address is missing the source only logs and falls
through (line 193 has no return). -/
def process_withdraw_btc (t : WithdrawTransaction) (ext : Ext) :
    WithdrawTransaction × Option SendAttempt :=
  if t.currency ≠ "BTC" ∧ t.tx_type ≠ "native" then (t, none)
  else if t.status ≠ "created" then (t, none)
  else
    let to_address := ext.btc_withdraw_address
    if ¬ ext.btc_fetch_ok then (t, none)
    else
      let balance := if ext.btc_unspent_value ≤ 0 then 0 else ext.btc_unspent_value
      if balance < ext.btc_relay_fee then ({ t with status := "skipped" }, none)
      else
        let attempt : SendAttempt := ⟨to_address, balance - ext.btc_relay_fee⟩
        match ext.send_result with
        | .ok h =>
            ({ t with tx_hash := some h, status := "pending",
                      relayed_at := some ext.now }, some attempt)
        | .error e =>
            ({ t with status := "failed", error_message := e }, some attempt)

/-- WithdrawTransaction.process_withdraw_eth (models.py lines 437-509).
The failure branch of the broadcast (lines 502-509) assigns status FAILED
and the error in memory but, unlike every other processor, never calls
save, so the persisted row is unchanged there. -/
def process_withdraw_eth (t : WithdrawTransaction)
    (txs : List WithdrawTransaction) (ext : Ext) : WithdrawTransaction :=
  if t.currency ≠ "ETH" ∧ t.tx_type ≠ "native" then t
  else if ¬ (t.status = "created" ∨ t.status = "waiting_for_erc20_transfers") then t
  else
    let proceed : Bool :=
      if t.status = "waiting_for_erc20_transfers" then
        let all_erc20 := txs.filter (fun u =>
          u.withdraw_cycle == t.withdraw_cycle && u.account == t.account &&
          u.tx_type == "erc20")
        let completed_erc20 := all_erc20.filter (fun u =>
          u.status == "skipped" || u.status == "completed")
        ! decide (completed_erc20.length < all_erc20.length)
      else true
    if !proceed then t
    else
      let total_gas_fee := ext.gas_price * 21000
      if ext.eth_balance < total_gas_fee then { t with status := "skipped" }
      else
        match ext.send_result with
        | .ok h =>
            { t with status := "pending", tx_hash := some h,
                     relayed_at := some ext.now }
        | .error _ => t

/-- Eligible statuses of process_withdraw_erc20 (models.py lines 353-357). -/
def erc20_processing_statuses : List String :=
  ["created", "waiting_for_gas_refill", "waiting_for_erc20_transfers"]

/-- WithdrawTransaction.process_withdraw_erc20 (models.py lines 348-435).
The Bool output records whether a broadcast was attempted.  A refill
queryset with several rows makes the source raise in refill_transaction.get
with nothing persisted, and a null amount makes int raise before any save. -/
def process_withdraw_erc20 (t : WithdrawTransaction)
    (txs : List WithdrawTransaction) (mgrs : List TransactionManager)
    (ext : Ext) : WithdrawTransaction × Bool :=
  if t.currency ∉ ["USDC", "USDT"] ∧ t.tx_type ≠ "erc20" then (t, false)
  else if t.status ∉ erc20_processing_statuses then (t, false)
  else
    let refills := txs.filter (fun u =>
      u.withdraw_cycle == t.withdraw_cycle && u.account == t.account &&
      u.tx_type == "gas_refill")
    match refills with
    | [] => ({ t with status := "skipped" }, false)
    | [r] =>
        if r.status = "failed" then ({ t with status := "skipped" }, false)
        else if r.status ∉ ["completed", "skipped"] then (t, false)
        else
          let queueSet := mgrs.filter (fun m =>
            m.tx_to_process == some t.id &&
            m.withdraw_cycle == t.withdraw_cycle &&
            m.queue_type == t.tx_type && m.account == some t.account)
          if (t.status = "waiting_for_gas_refill" ∨
              t.status = "waiting_for_erc20_transfers") ∧ queueSet.isEmpty then
            if t.status = "waiting_for_gas_refill" then
              ({ t with status := "waiting_for_erc20_transfers" }, false)
            else (t, false)
          else
            match t.amount with
            | none => (t, false)
            | some _ =>
                match ext.send_result with
                | .ok h =>
                    ({ t with tx_hash := some h, status := "pending",
                              relayed_at := some ext.now }, true)
                | .error e =>
                    ({ t with status := "failed", error_message := e }, true)
    | _ => (t, false)

/-- Sibling predicate of process_gas_refill: the ERC20 withdrawals of the
same account and cycle (models.py lines 272-276). -/
def isRefillSibling (t u : WithdrawTransaction) : Bool :=
  u.withdraw_cycle == t.withdraw_cycle && u.account == t.account &&
  u.tx_type == "erc20"

/-- WithdrawTransaction.process_gas_refill (models.py lines 238-346).
Returns the whole persisted transaction table (the loop saves amount and
gas price on every sibling before any comparison) and whether a broadcast
was attempted.  int of a float product of 1.1 and 1.2 is modelled by the
integer quotients times 11 and 12 over 10; a null gas_tx_count makes the
multiplication raise with nothing persisted. -/
def process_gas_refill (t : WithdrawTransaction)
    (txs : List WithdrawTransaction) (mgrs : List TransactionManager)
    (ext : Ext) : List WithdrawTransaction × Bool :=
  if t.currency ≠ "ETH" ∧ t.tx_type ≠ "gas_refill" then (txs, false)
  else if t.status ≠ "created" then (txs, false)
  else
    let queueSet := mgrs.filter (fun m =>
      m.tx_to_process == some t.id && m.withdraw_cycle == t.withdraw_cycle &&
      m.queue_type == t.tx_type)
    if queueSet.isEmpty then (txs, false)
    else
      match t.gas_tx_count with
      | none => (txs, false)
      | some cnt =>
          let gas_price := ext.gas_price
          let refill_gas_fee := gas_price * 21000
          let erc20_gas_limit := 200000 * (cnt : Int)
          let erc20_gas_fee := gas_price * erc20_gas_limit
          let total := ((txs.filter (isRefillSibling t)).map
            (fun u => ext.token_value_eth u.currency)).sum
          let txs1 := txs.map (fun u =>
            if isRefillSibling t u then
              { u with amount := some (ext.token_balance u.currency),
                       gas_price_erc20 := some gas_price }
            else u)
          let total_cost := refill_gas_fee + erc20_gas_fee
          if total ≤ total_cost then
            let txs2 := txs1.map (fun u =>
              if isRefillSibling t u then { u with status := "skipped" } else u)
            (replaceById txs2 t.id { t with status := "erc20_balance_too_low" },
             false)
          else if ext.eth_balance > erc20_gas_fee * 11 / 10 then
            (replaceById txs1 t.id { t with status := "skipped" }, false)
          else
            let refill_amount := erc20_gas_fee * 12 / 10
            match ext.send_result with
            | .ok h =>
                (replaceById txs1 t.id
                  { t with amount := some refill_amount, status := "pending",
                           tx_hash := some h, gas_price_erc20 := some gas_price,
                           relayed_at := some ext.now }, true)
            | .error e =>
                (replaceById txs1 t.id
                  { t with amount := some refill_amount, status := "failed",
                           error_message := e }, true)

/-- WithdrawTransaction.check_confirmation_time (models.py lines 562-567);
the window is timedelta(hours=hours) on a clock counted in hours.  A null
relayed_at makes the addition raise with nothing persisted. -/
def check_confirmation_time (t : WithdrawTransaction) (hours : Int)
    (now : Int) : WithdrawTransaction :=
  match t.relayed_at with
  | none => t
  | some r => if now < r + hours then t else { t with status := "sent_tx_not_found" }

/-- WithdrawTransaction.tx_confirm_eth_erc20 (models.py lines 520-540). -/
def tx_confirm_eth_erc20 (t : WithdrawTransaction) (ext : Ext) :
    WithdrawTransaction :=
  if t.status = "completed" then t
  else
    match ext.receipt with
    | .raised => t
    | .notFound => check_confirmation_time t 2 ext.now
    | .found statusZero =>
        if statusZero then { t with status := "failed", error_message := "reverted" }
        else { t with status := "completed" }

/-- WithdrawTransaction.tx_confirm_btc (models.py lines 542-560). -/
def tx_confirm_btc (t : WithdrawTransaction) (ext : Ext) : WithdrawTransaction :=
  if t.status = "completed" then t
  else
    match ext.btc_confirmations with
    | .error _ => check_confirmation_time t 3 ext.now
    | .ok c => if c > 3 then { t with status := "completed" } else t

/-- WithdrawCycle.check_for_completion (models.py lines 115-129), acting on
the cycle row given the transaction table. -/
def check_for_completion (c : WithdrawCycle)
    (txs : List WithdrawTransaction) : WithdrawCycle :=
  let ongoing := txs.filter (fun u =>
    u.withdraw_cycle == c.id &&
    (u.status == "created" || u.status == "pending" ||
     u.status == "waiting_for_erc20_transfers" ||
     u.status == "waiting_for_gas_refill"))
  if ongoing.length > 0 then c else { c with status := "completed" }

/-- TransactionManager.is_current_tx_finished (models.py lines 583-587). -/
def is_current_tx_finished (m : TransactionManager)
    (txs : List WithdrawTransaction) : Bool :=
  match m.tx_to_process with
  | none => true
  | some i =>
      match txs.find? (fun u => u.id == i) with
      | none => true
      | some u => u.status != "pending"

/-- Insert keeping ascending order for the given comparison. -/
def sortedInsert {α : Type} (le : α → α → Bool) (x : α) :
    List α → List α
  | [] => [x]
  | y :: ys => if le x y then x :: y :: ys else y :: sortedInsert le x ys

/-- Insertion sort modelling the order_by clauses of the querysets. -/
def sortBy {α : Type} (le : α → α → Bool) (l : List α) : List α :=
  l.foldr (sortedInsert le) []

/-- TransactionManager.get_remaining_txes (models.py lines 601-618). -/
def get_remaining_txes (m : TransactionManager)
    (txs : List WithdrawTransaction) : List WithdrawTransaction :=
  let ws := txs.filter (fun u =>
    u.withdraw_cycle == m.withdraw_cycle && u.tx_type == m.queue_type)
  if m.queue_type == "erc20" then
    sortBy (fun a b => decide (a.currency ≤ b.currency))
      (ws.filter (fun u =>
        m.account == some u.account &&
        (u.status == "created" || u.status == "waiting_for_erc20_transfers" ||
         u.status == "waiting_for_gas_refill")))
  else
    sortBy (fun a b => decide (a.account ≤ b.account))
      (ws.filter (fun u => u.status == "created"))

/-- TransactionManager.set_next_tx (models.py lines 620-635). -/
def set_next_tx (m : TransactionManager)
    (txs : List WithdrawTransaction) : TransactionManager :=
  if m.completed then m
  else if ¬ is_current_tx_finished m txs then m
  else
    match get_remaining_txes m txs with
    | [] => { m with tx_to_process := none, completed := true }
    | r :: _ => { m with tx_to_process := some r.id }

/-- Accumulator of create_withdraw_cycle: fresh-id counters and the rows
created so far. -/
structure BuildState where
  nextTxId : Nat
  nextMgrId : Nat
  txs : List WithdrawTransaction
  mgrs : List TransactionManager
  deriving Repr, DecidableEq

/-- Fresh WithdrawTransaction row with the model defaults of untouched
columns (models.py lines 150-161). -/
def mkTx (i cyc a : Nat) (cur st ty : String) (cnt : Option Nat) :
    WithdrawTransaction :=
  { id := i, withdraw_cycle := cyc, account := a, amount := none,
    currency := cur, status := st, tx_type := ty, tx_hash := none,
    gas_tx_count := cnt, gas_price_erc20 := none, error_message := "",
    relayed_at := none }

/-- Fresh TransactionManager row with the model defaults (models.py lines
576-581). -/
def mkMgr (i cyc : Nat) (a : Option Nat) (qt : String) : TransactionManager :=
  { id := i, withdraw_cycle := cyc, account := a, tx_to_process := none,
    queue_type := qt, completed := false }

/-- Lookup key of the gas-refill get_or_create (models.py lines 60-66): the
searched kwargs include gas_tx_count equal to one. -/
def gasLookup (cyc a : Nat) (u : WithdrawTransaction) : Bool :=
  u.withdraw_cycle == cyc && u.account == a && u.currency == "ETH" &&
  u.gas_tx_count == some 1 && u.tx_type == "gas_refill"

/-- Body of the currency loop of create_withdraw_cycle (models.py lines
49-99) for one account and one currency: the ETH-without-tokens continue,
the gas-refill and queue get_or_creates of the ERC20 branch, and the final
per-pair transaction creation. -/
def processCurrency (cyc : Nat) (currencies : List String) (a : Nat)
    (st : BuildState) (c : String) : BuildState :=
  if c = "ETH" then
    if (currencies.filter (fun x => !(x ∈ NATIVE_CURRENCIES : Bool))) = [] then st
    else
      { st with nextTxId := st.nextTxId + 1,
                txs := st.txs ++
                  [mkTx st.nextTxId cyc a "ETH" "waiting_for_erc20_transfers"
                    "native" none] }
  else if c ∈ ERC20_CURRENCIES then
    let st1 :=
      match st.txs.find? (gasLookup cyc a) with
      | some g =>
          let g2 := { g with gas_tx_count := g.gas_tx_count.map (· + 1) }
          { st with txs := replaceById st.txs g.id g2 }
      | none =>
          { st with nextTxId := st.nextTxId + 1,
                    txs := st.txs ++ [mkTx st.nextTxId cyc a "ETH" "created"
                      "gas_refill" (some 1)] }
    let st2 :=
      if st1.mgrs.any (fun m =>
          m.withdraw_cycle == cyc && m.account == some a &&
          m.queue_type == "erc20") then st1
      else
        { st1 with nextMgrId := st1.nextMgrId + 1,
                   mgrs := st1.mgrs ++ [mkMgr st1.nextMgrId cyc (some a) "erc20"] }
    let st3 :=
      if st2.mgrs.any (fun m =>
          m.withdraw_cycle == cyc && m.queue_type == "gas_refill") then st2
      else
        { st2 with nextMgrId := st2.nextMgrId + 1,
                   mgrs := st2.mgrs ++ [mkMgr st2.nextMgrId cyc none "gas_refill"] }
    { st3 with nextTxId := st3.nextTxId + 1,
               txs := st3.txs ++
                 [mkTx st3.nextTxId cyc a c "waiting_for_gas_refill" "erc20" none] }
  else
    let ty := if c ∈ NATIVE_CURRENCIES then "native" else "erc20"
    { st with nextTxId := st.nextTxId + 1,
              txs := st.txs ++ [mkTx st.nextTxId cyc a c "created" ty none] }

/-- The account loop body of create_withdraw_cycle. -/
def processAccount (cyc : Nat) (currencies : List String)
    (st : BuildState) (a : Nat) : BuildState :=
  currencies.foldl (processCurrency cyc currencies a) st

/-- Whole persisted database: the tables the module reads and writes. -/
structure SysState where
  cycles : List WithdrawCycle
  txs : List WithdrawTransaction
  mgrs : List TransactionManager
  deriving Repr, DecidableEq

/-- Planning phase of create_withdraw_cycle after currency validation:
sort, create the cycle, enumerate accounts times currencies, then move the
cycle to pending (models.py lines 39-102). -/
def buildFrom (cs : List String) (accounts : List Nat) : SysState :=
  let sorted := sortBy (fun a b => decide (a ≤ b)) cs
  let st := accounts.foldl (processAccount 0 sorted) ⟨0, 0, [], []⟩
  { cycles := [{ id := 0, currencies := sorted, status := "pending" }],
    txs := st.txs, mgrs := st.mgrs }

/-- create_withdraw_cycle (models.py lines 25-102) from an empty database.
A none or empty argument falls back to all supported currencies (line 27).
Otherwise the list is deduplicated (list of set; the arbitrary set order is
normalized by the later sort, modelled with List.dedup); the validation loop
then calls currencies.pop(currency) on the first unsupported entry, and
list.pop with a str argument raises TypeError, so no cycle is created. -/
def create_withdraw_cycle (currencies : Option (List String))
    (accounts : List Nat) : Except String SysState :=
  match currencies with
  | none => .ok (buildFrom AVAILABLE_CURRENCIES accounts)
  | some cs =>
      if cs = [] then .ok (buildFrom AVAILABLE_CURRENCIES accounts)
      else
        let ds := cs.dedup
        if ds.all (fun c => decide (c ∈ AVAILABLE_CURRENCIES)) then
          .ok (buildFrom ds accounts)
        else
          .error "TypeError: list.pop expects an integer index"

/-- WithdrawTransaction.process_selector (models.py lines 163-175) lifted to
the database: find the row, route by type then currency, persist the
outcome. -/
def process_selector (s : SysState) (i : Nat) (ext : Ext) : SysState :=
  match s.txs.find? (fun u => u.id == i) with
  | none => s
  | some t =>
      if t.tx_type = "gas_refill" then
        { s with txs := (process_gas_refill t s.txs s.mgrs ext).1 }
      else if t.tx_type = "erc20" then
        { s with txs :=
            replaceById s.txs t.id (process_withdraw_erc20 t s.txs s.mgrs ext).1 }
      else if t.currency = "BTC" then
        { s with txs := replaceById s.txs t.id (process_withdraw_btc t ext).1 }
      else if t.currency = "ETH" then
        { s with txs := replaceById s.txs t.id (process_withdraw_eth t s.txs ext) }
      else s

/-- WithdrawTransaction.confirm_selector (models.py lines 511-518) lifted to
the database. -/
def confirm_selector (s : SysState) (i : Nat) (ext : Ext) : SysState :=
  match s.txs.find? (fun u => u.id == i) with
  | none => s
  | some t =>
      if t.currency = "ETH" ∨ t.tx_type = "erc20" then
        { s with txs := replaceById s.txs t.id (tx_confirm_eth_erc20 t ext) }
      else if t.currency = "BTC" then
        { s with txs := replaceById s.txs t.id (tx_confirm_btc t ext) }
      else s

/-- set_next_tx on the queue row with the given id, persisted. -/
def step_set_next (s : SysState) (j : Nat) : SysState :=
  match s.mgrs.find? (fun m => m.id == j) with
  | none => s
  | some m =>
      { s with mgrs := s.mgrs.map (fun u =>
          if u.id == j then set_next_tx m s.txs else u) }

/-- check_for_completion on the cycle row with the given id, persisted. -/
def step_check_completion (s : SysState) (k : Nat) : SysState :=
  match s.cycles.find? (fun c => c.id == k) with
  | none => s
  | some c =>
      { s with cycles := s.cycles.map (fun u =>
          if u.id == k then check_for_completion c s.txs else u) }

/-- One driver step: the periodic invoker calls a processing entry point, a
confirmation entry point, a queue advance, or the completion check, on any
row and with any external responses. -/
inductive Step : SysState → SysState → Prop
  | process (s : SysState) (i : Nat) (ext : Ext) : Step s (process_selector s i ext)
  | confirm (s : SysState) (i : Nat) (ext : Ext) : Step s (confirm_selector s i ext)
  | next (s : SysState) (j : Nat) : Step s (step_set_next s j)
  | complete (s : SysState) (k : Nat) : Step s (step_check_completion s k)

/-- States reachable from a successful cycle creation under driver steps. -/
inductive Reachable : SysState → Prop
  | init (cs : Option (List String)) (accounts : List Nat) (s : SysState)
      (h : create_withdraw_cycle cs accounts = Except.ok s) : Reachable s
  | step (s s2 : SysState) (hs : Reachable s) (hstep : Step s s2) : Reachable s2

/-- Baseline external responses for concrete evaluations: every lookup
succeeds with zero values and broadcasts are accepted. -/
def extBase : Ext :=
  { btc_withdraw_address := some "dest", btc_fetch_ok := true,
    btc_unspent_value := 0, btc_relay_fee := 0, gas_price := 0,
    eth_balance := 0, token_balance := fun _ => 0,
    token_value_eth := fun _ => 0, send_result := .ok "hash",
    receipt := .notFound, btc_confirmations := .error (), now := 0 }

/-- External responses under which an authorized gas refill broadcast
succeeds: nonzero gas price and ample token value backing the refill. -/
def extGasOk : Ext :=
  { extBase with gas_price := 1, token_value_eth := fun _ => 1000000 }

/-- Demonstration run: create a cycle for one token currency and one
account, let the gas queue authorize the refill, then process the refill
to PENDING. -/
def demoState : SysState :=
  process_selector (step_set_next (buildFrom ["USDT"] [0]) 1) 0 extGasOk

/-- The global gas queue entry of the demonstration run after it has
authorized the refill transaction. -/
def gasQueueDemo : TransactionManager :=
  { id := 1, withdraw_cycle := 0, account := none, tx_to_process := some 0,
    queue_type := "gas_refill", completed := false }

/-- The refill transaction of the demonstration run after its broadcast. -/
def gasTxDemo : WithdrawTransaction :=
  { id := 0, withdraw_cycle := 0, account := 0, amount := some 240000,
    currency := "ETH", status := "pending", tx_type := "gas_refill",
    tx_hash := some "hash", gas_tx_count := some 1, gas_price_erc20 := some 1,
    error_message := "", relayed_at := some 0 }

/-- The GAS_REFILL rows of one account in the cycle the builder creates
(cycle id zero). -/
def gasFilter (a : Nat) (u : WithdrawTransaction) : Bool :=
  u.withdraw_cycle == 0 && u.account == a && u.tx_type == "gas_refill"

/-- The list of GAS_REFILL rows of the given account. -/
def gasSet (txs : List WithdrawTransaction) (a : Nat) :
    List WithdrawTransaction :=
  txs.filter (gasFilter a)

/-- Number of token (ERC20) currencies in a requested currency list. -/
def countTokens (cs : List String) : Nat :=
  (cs.filter (fun c => decide (c ∈ ERC20_CURRENCIES))).length

/-- Shape of the gas-refill rows of one account after k token currencies
have been processed: none yet, or a single ETH row counting k. -/
def GasShape (txs : List WithdrawTransaction) (a : Nat) : Nat → Prop
  | 0 => gasSet txs a = []
  | Nat.succ j => ∃ g, gasSet txs a = [g] ∧ g.currency = "ETH" ∧
      g.gas_tx_count = some (j + 1)

/-- Builder bookkeeping: every created row has an id below the fresh-id
counter, and ids are distinct. -/
def TxIdsOk (st : BuildState) : Prop :=
  (∀ u ∈ st.txs, u.id < st.nextTxId) ∧ (st.txs.map (fun u => u.id)).Nodup

/-- A queue entry watches a transaction when the transaction belongs to the
remaining-set domain of the queue: same cycle, matching type, and for a
token queue the same account (spec section three: a GAS_REFILL transaction
is watched by the global gas queue, a token transaction by its account's
token queue). -/
def watches (m : TransactionManager) (t : WithdrawTransaction) : Prop :=
  t.withdraw_cycle = m.withdraw_cycle ∧ t.tx_type = m.queue_type ∧
  (m.queue_type = "erc20" → m.account = some t.account)

/-- Inductive system invariant: distinct transaction ids, no token
withdrawal ever in CREATED, queue entries only of the two queue types and
unique per serialization domain, and every watched PENDING transaction is
its queue entry's currently authorized transaction. -/
def Inv (s : SysState) : Prop :=
  (s.txs.map (fun u => u.id)).Nodup ∧
  (∀ t ∈ s.txs, t.tx_type = "erc20" → t.status ≠ "created") ∧
  (∀ m ∈ s.mgrs, m.queue_type = "erc20" ∨ m.queue_type = "gas_refill") ∧
  (∀ m ∈ s.mgrs, ∀ m2 ∈ s.mgrs, m.withdraw_cycle = m2.withdraw_cycle →
    m.queue_type = m2.queue_type →
    (m.queue_type = "gas_refill" ∨ m.account = m2.account) → m = m2) ∧
  (∀ m ∈ s.mgrs, ∀ t ∈ s.txs, watches m t → t.status = "pending" →
    m.tx_to_process = some t.id)

/-- Builder-time invariant: id bookkeeping, no PENDING and no CREATED
token row, and queue entries fresh, of valid type and unique per domain. -/
def BInv (st : BuildState) : Prop :=
  TxIdsOk st ∧
  (∀ t ∈ st.txs, t.status ≠ "pending" ∧
    (t.tx_type = "erc20" → t.status ≠ "created")) ∧
  (∀ m ∈ st.mgrs, (m.queue_type = "erc20" ∨ m.queue_type = "gas_refill") ∧
    m.tx_to_process = none ∧ m.withdraw_cycle = 0) ∧
  (∀ m ∈ st.mgrs, ∀ m2 ∈ st.mgrs, m.queue_type = m2.queue_type →
    (m.queue_type = "gas_refill" ∨ m.account = m2.account) → m = m2)

/-- C2: create_withdraw_cycle evaluated at the failing input: a list with
one unsupported code raises TypeError out of the validation loop (list.pop
called with a str), so no cycle is created, refuting that unsupported
entries are dropped with a warning and never abort cycle creation. -/
theorem c2_unsupported_currency_aborts :
    create_withdraw_cycle (some ["BTC", "DOGE"]) [0] =
      Except.error "TypeError: list.pop expects an integer index" := by rfl

/-- C4 counterexample: a CREATED BTC withdrawal with a successful unspent
fetch whose balance equals the relay fee exactly is not SKIPPED; the source
compares with strict less-than, broadcasts the zero remainder and reaches
PENDING. -/
theorem c4_balance_eq_fee_not_skipped :
    (process_withdraw_btc (mkTx 0 0 0 "BTC" "created" "native" none)
      ({ extBase with btc_unspent_value := 1000, btc_relay_fee := 1000 })).1.status
      = "pending" ∧
    (process_withdraw_btc (mkTx 0 0 0 "BTC" "created" "native" none)
      ({ extBase with btc_unspent_value := 1000, btc_relay_fee := 1000 })).1.status
      ≠ "skipped" := by decide

/-- C4 as amended: for a CREATED BTC native withdrawal with a successful
unspent fetch, SKIPPED is assigned exactly when the clamped balance is
strictly below the relay fee; a balance exactly equal to the fee proceeds
to a broadcast attempt and, on success, PENDING. -/
theorem c4_skipped_iff_balance_lt_fee (t : WithdrawTransaction) (ext : Ext)
    (hcur : t.currency = "BTC") (hty : t.tx_type = "native")
    (hst : t.status = "created") (hok : ext.btc_fetch_ok = true) :
    ((process_withdraw_btc t ext).1.status = "skipped" ↔
      (if ext.btc_unspent_value ≤ 0 then 0 else ext.btc_unspent_value) <
        ext.btc_relay_fee) ∧
    ((if ext.btc_unspent_value ≤ 0 then 0 else ext.btc_unspent_value) =
        ext.btc_relay_fee →
      (process_withdraw_btc t ext).2.isSome = true ∧
      ∀ h, ext.send_result = Except.ok h →
        (process_withdraw_btc t ext).1.status = "pending") := by
  unfold process_withdraw_btc
  rw [hcur, hty, hst, hok]
  simp only [ne_eq, not_true_eq_false, false_and, not_false_eq_true,
    if_false, if_true, ite_false, ite_true]
  constructor
  · by_cases hb :
      (if ext.btc_unspent_value ≤ 0 then 0 else ext.btc_unspent_value) <
        ext.btc_relay_fee
    · simp [hb]
    · simp only [hb, if_neg hb, if_false]
      cases ext.send_result <;> simp
  · intro heq
    have hb : ¬ (if ext.btc_unspent_value ≤ 0 then 0 else ext.btc_unspent_value) <
        ext.btc_relay_fee := by omega
    simp only [if_neg hb]
    cases hsr : ext.send_result <;> simp

/-- C5 counterexample: a token withdrawal in WAITING_FOR_GAS_REFILL (past
CREATED) whose refill transaction is still PENDING is returned unchanged:
its status is not set to WAITING_FOR_ERC20_TRANSFERS as the claim states. -/
theorem c5_unresolved_refill_leaves_status :
    (process_withdraw_erc20 (mkTx 0 0 0 "USDT" "waiting_for_gas_refill" "erc20" none)
      [mkTx 0 0 0 "USDT" "waiting_for_gas_refill" "erc20" none,
       mkTx 1 0 0 "ETH" "pending" "gas_refill" (some 1)] [] extBase).1.status
      = "waiting_for_gas_refill" := by decide

/-- C5 as amended: for an eligible token withdrawal, a missing refill gives
SKIPPED, a FAILED refill gives SKIPPED, and a refill that is neither
COMPLETED nor SKIPPED nor FAILED causes a plain postpone: nothing is
broadcast and the row is returned entirely unchanged, whatever its status;
the WAITING_FOR_ERC20_TRANSFERS flag is only set later, once the refill is
resolved, when the row is not the queue entry. -/
theorem c5_refill_gating (t r : WithdrawTransaction)
    (txs : List WithdrawTransaction) (mgrs : List TransactionManager)
    (ext : Ext) (hty : t.tx_type = "erc20")
    (hst : t.status ∈ erc20_processing_statuses) :
    (txs.filter (fun u =>
        u.withdraw_cycle == t.withdraw_cycle && u.account == t.account &&
        u.tx_type == "gas_refill") = [] →
      process_withdraw_erc20 t txs mgrs ext =
        ({ t with status := "skipped" }, false)) ∧
    (txs.filter (fun u =>
        u.withdraw_cycle == t.withdraw_cycle && u.account == t.account &&
        u.tx_type == "gas_refill") = [r] → r.status = "failed" →
      process_withdraw_erc20 t txs mgrs ext =
        ({ t with status := "skipped" }, false)) ∧
    (txs.filter (fun u =>
        u.withdraw_cycle == t.withdraw_cycle && u.account == t.account &&
        u.tx_type == "gas_refill") = [r] → r.status ≠ "failed" →
      r.status ∉ (["completed", "skipped"] : List String) →
      process_withdraw_erc20 t txs mgrs ext = (t, false)) := by
  unfold process_withdraw_erc20
  rw [hty]
  simp only [ne_eq, not_true_eq_false, and_false, if_false, ite_true,
    ite_false, if_neg, hst, if_pos]
  refine ⟨?_, ?_, ?_⟩
  · intro hf; rw [hf]
  · intro hf hr; rw [hf]; simp [hr]
  · intro hf hr hnr; rw [hf]; simp [hr, hnr]

/-- C7: the type and currency re-validation guards join the two mismatch
tests with a boolean and, so a single mismatch passes the guard: invoking
the BTC processor on an ETH native transaction in CREATED, with a
successful fetch and a balance below the relay fee, mutates its status to
SKIPPED instead of being a logged no-op. -/
theorem c7_wrong_processor_mutates :
    (process_withdraw_btc (mkTx 0 0 0 "ETH" "created" "native" none)
      ({ extBase with btc_relay_fee := 5 })).1.status = "skipped" ∧
    (mkTx 0 0 0 "ETH" "created" "native" none).status = "created" := by decide

/-- C8: when the account-chain native sweep broadcast raises, the source
assigns FAILED and the error only in memory and never calls save (unlike
every other processor), so the persisted transaction is unchanged and
subsequent passes do not observe FAILED. -/
theorem c8_broadcast_failure_not_persisted :
    process_withdraw_eth (mkTx 0 0 0 "ETH" "created" "native" none) []
      ({ extBase with send_result := Except.error "nonce too low" })
      = mkTx 0 0 0 "ETH" "created" "native" none ∧
    (mkTx 0 0 0 "ETH" "created" "native" none).status ≠ "failed" := by decide

/-- C10: with the configured BTC withdraw address unset the processor only
logs and keeps going: a CREATED BTC withdrawal with a successful fetch and
balance at least the fee still reaches the broadcast, with the missing
address as the key of output_params, and PENDING on success. -/
theorem c10_missing_address_still_broadcasts (t : WithdrawTransaction)
    (ext : Ext) (hcur : t.currency = "BTC") (hty : t.tx_type = "native")
    (hst : t.status = "created") (haddr : ext.btc_withdraw_address = none)
    (hok : ext.btc_fetch_ok = true)
    (hbal : ¬ (if ext.btc_unspent_value ≤ 0 then 0 else ext.btc_unspent_value) <
      ext.btc_relay_fee) :
    (∃ sa, (process_withdraw_btc t ext).2 = some sa ∧ sa.to_key = none) ∧
    (∀ h, ext.send_result = Except.ok h →
      (process_withdraw_btc t ext).1.status = "pending") := by
  unfold process_withdraw_btc
  rw [hcur, hty, hst, hok, haddr]
  simp only [ne_eq, not_true_eq_false, false_and, if_false, ite_true,
    ite_false, if_neg hbal]
  cases hsr : ext.send_result <;> simp

/-- C10 witness: a concrete missing-address run broadcasting with the none
output key and finishing PENDING. -/
theorem c10_witness :
    (mkTx 0 0 0 "BTC" "created" "native" none).currency = "BTC" ∧
    (∃ sa, (process_withdraw_btc (mkTx 0 0 0 "BTC" "created" "native" none)
      ({ extBase with btc_withdraw_address := none, btc_unspent_value := 7,
                      btc_relay_fee := 3 })).2 = some sa ∧ sa.to_key = none) ∧
    (process_withdraw_btc (mkTx 0 0 0 "BTC" "created" "native" none)
      ({ extBase with btc_withdraw_address := none, btc_unspent_value := 7,
                      btc_relay_fee := 3 })).1.status = "pending" :=
  ⟨by decide,
   (c10_missing_address_still_broadcasts _ _ rfl rfl rfl rfl rfl (by decide)).1,
   (c10_missing_address_still_broadcasts _ _ rfl rfl rfl rfl rfl (by decide)).2
     "hash" rfl⟩

/-- C4 witness: a concrete run with balance 5 below fee 9 is SKIPPED, and a
concrete run with balance equal to fee 9 broadcasts and is PENDING. -/
theorem c4_witness :
    ((process_withdraw_btc (mkTx 0 0 0 "BTC" "created" "native" none)
      ({ extBase with btc_unspent_value := 5, btc_relay_fee := 9 })).1.status
      = "skipped") ∧
    ((process_withdraw_btc (mkTx 0 0 0 "BTC" "created" "native" none)
      ({ extBase with btc_unspent_value := 9, btc_relay_fee := 9 })).1.status
      = "pending") :=
  ⟨(c4_skipped_iff_balance_lt_fee _ _ rfl rfl rfl rfl).1.mpr (by decide),
   ((c4_skipped_iff_balance_lt_fee _ _ rfl rfl rfl rfl).2 (by decide)).2
     "hash" rfl⟩

/-- C5 witness: concrete instances of the three refill gates: missing
refill gives SKIPPED, failed refill gives SKIPPED, pending refill leaves
the row unchanged. -/
theorem c5_witness :
    (process_withdraw_erc20 (mkTx 0 0 0 "USDC" "created" "erc20" none) [] []
      extBase = ({ mkTx 0 0 0 "USDC" "created" "erc20" none with
        status := "skipped" }, false)) ∧
    (process_withdraw_erc20 (mkTx 0 0 0 "USDC" "created" "erc20" none)
      [mkTx 1 0 0 "ETH" "pending" "gas_refill" (some 1)] [] extBase =
      (mkTx 0 0 0 "USDC" "created" "erc20" none, false)) :=
  ⟨(c5_refill_gating (mkTx 0 0 0 "USDC" "created" "erc20" none)
      (mkTx 1 0 0 "ETH" "pending" "gas_refill" (some 1)) [] [] extBase rfl
      (by decide)).1 (by decide),
   (c5_refill_gating (mkTx 0 0 0 "USDC" "created" "erc20" none)
      (mkTx 1 0 0 "ETH" "pending" "gas_refill" (some 1))
      [mkTx 1 0 0 "ETH" "pending" "gas_refill" (some 1)] [] extBase rfl
      (by decide)).2.2 (by decide) (by decide) (by decide)⟩

/-- C6: during gas-refill processing of an eligible, queue-authorized
refill, when the summed rate-converted token balances do not exceed the
total gas cost (refill transfer fee plus per-token transfer fee times the
stored token count), the refill row becomes ERC20_BALANCE_TOO_LOW (the
status the design calls TOKEN_BALANCE_TOO_LOW), every sibling token
withdrawal of that account and cycle becomes SKIPPED, and no transfer is
broadcast. -/
theorem c6_token_balance_too_low (t : WithdrawTransaction)
    (txs : List WithdrawTransaction) (mgrs : List TransactionManager)
    (ext : Ext) (cnt : Nat)
    (hty : t.tx_type = "gas_refill") (hst : t.status = "created")
    (hq : (mgrs.filter (fun m =>
        m.tx_to_process == some t.id && m.withdraw_cycle == t.withdraw_cycle &&
        m.queue_type == t.tx_type)).isEmpty = false)
    (hcnt : t.gas_tx_count = some cnt)
    (hle : ((txs.filter (isRefillSibling t)).map
        (fun u => ext.token_value_eth u.currency)).sum ≤
      ext.gas_price * 21000 + ext.gas_price * (200000 * (cnt : Int))) :
    (process_gas_refill t txs mgrs ext).2 = false ∧
    ∀ u ∈ (process_gas_refill t txs mgrs ext).1,
      (u.id = t.id → u.status = "erc20_balance_too_low") ∧
      (u.id ≠ t.id → isRefillSibling t u = true → u.status = "skipped") := by
  unfold process_gas_refill
  rw [hty] at hq
  rw [hty, hst, hcnt]
  simp only [ne_eq, not_true_eq_false, and_false, if_false, ite_true,
    ite_false, hq, Bool.false_eq_true]
  rw [if_pos hle]
  refine ⟨rfl, ?_⟩
  intro u hu
  unfold replaceById at hu
  rw [List.mem_map] at hu
  obtain ⟨v2, hv2, huv⟩ := hu
  rw [List.mem_map] at hv2
  obtain ⟨v1, hv1, hv12⟩ := hv2
  rw [List.mem_map] at hv1
  obtain ⟨w, _, hwv⟩ := hv1
  constructor
  · intro hid
    by_cases hb : (v2.id == t.id) = true
    · rw [if_pos hb] at huv
      rw [← huv]
    · rw [if_neg hb] at huv
      exfalso
      apply hb
      rw [huv, hid]
      simp
  · intro hid hsib
    have hb : ¬ (v2.id == t.id) = true := by
      intro hbb
      rw [if_pos hbb] at huv
      apply hid
      rw [← huv]
    rw [if_neg hb] at huv
    subst huv
    by_cases hs : isRefillSibling t v1 = true
    · rw [if_pos hs] at hv12
      rw [← hv12]
    · rw [if_neg hs] at hv12
      rw [hv12] at hs
      exact absurd hsib hs

/-- C6 witness: one token sibling worth 90 against a total gas cost of
221000 at gas price one: the refill is marked too low, the sibling is
SKIPPED and nothing is broadcast. -/
theorem c6_witness :
    (process_gas_refill (mkTx 1 0 0 "ETH" "created" "gas_refill" (some 1))
      [mkTx 1 0 0 "ETH" "created" "gas_refill" (some 1),
       mkTx 2 0 0 "USDT" "waiting_for_gas_refill" "erc20" none]
      [{ id := 0, withdraw_cycle := 0, account := none,
         tx_to_process := some 1, queue_type := "gas_refill",
         completed := false }]
      ({ extBase with gas_price := 1, token_value_eth := fun _ => 90 })).2
      = false ∧
    ∀ u ∈ (process_gas_refill (mkTx 1 0 0 "ETH" "created" "gas_refill" (some 1))
      [mkTx 1 0 0 "ETH" "created" "gas_refill" (some 1),
       mkTx 2 0 0 "USDT" "waiting_for_gas_refill" "erc20" none]
      [{ id := 0, withdraw_cycle := 0, account := none,
         tx_to_process := some 1, queue_type := "gas_refill",
         completed := false }]
      ({ extBase with gas_price := 1, token_value_eth := fun _ => 90 })).1,
      (u.id = (mkTx 1 0 0 "ETH" "created" "gas_refill" (some 1)).id →
        u.status = "erc20_balance_too_low") ∧
      (u.id ≠ (mkTx 1 0 0 "ETH" "created" "gas_refill" (some 1)).id →
        isRefillSibling (mkTx 1 0 0 "ETH" "created" "gas_refill" (some 1)) u
          = true → u.status = "skipped") :=
  c6_token_balance_too_low _ _ _ _ 1 rfl rfl (by decide) rfl (by decide)

theorem mem_sortedInsert {α : Type} (le : α → α → Bool) (x y : α)
    (l : List α) : y ∈ sortedInsert le x l ↔ y = x ∨ y ∈ l := by
  induction l with
  | nil => simp [sortedInsert]
  | cons z zs ih =>
      unfold sortedInsert
      by_cases h : le x z = true
      · rw [if_pos h]
        simp [List.mem_cons]
      · rw [if_neg h]
        simp only [List.mem_cons, ih]
        tauto

theorem mem_sortBy {α : Type} (le : α → α → Bool) (y : α) (l : List α) :
    y ∈ sortBy le l ↔ y ∈ l := by
  induction l with
  | nil => simp [sortBy]
  | cons z zs ih =>
      show y ∈ sortedInsert le z (sortBy le zs) ↔ _
      rw [mem_sortedInsert]
      simp only [List.mem_cons, ih]

theorem find?_id_unique (txs : List WithdrawTransaction)
    (t : WithdrawTransaction) (hnd : (txs.map (fun u => u.id)).Nodup)
    (ht : t ∈ txs) : txs.find? (fun u => u.id == t.id) = some t := by
  induction txs with
  | nil => cases ht
  | cons h tl ih =>
      rw [List.map_cons, List.nodup_cons] at hnd
      rcases List.mem_cons.mp ht with rfl | htl
      · rw [List.find?_cons]
        simp
      · have hne2 : (h.id == t.id) = false := by
          rw [beq_eq_false_iff_ne]
          intro he
          exact hnd.1 (he ▸ List.mem_map_of_mem (fun u => u.id) htl)
        rw [List.find?_cons, hne2]
        exact ih hnd.2 htl

theorem txid_inj {txs : List WithdrawTransaction}
    (hnd : (txs.map (fun u => u.id)).Nodup) {t u : WithdrawTransaction}
    (ht : t ∈ txs) (hu : u ∈ txs) (h : t.id = u.id) : t = u := by
  have h1 := find?_id_unique txs t hnd ht
  have h2 := find?_id_unique txs u hnd hu
  rw [h] at h1
  rw [h1] at h2
  exact Option.some.inj h2

theorem remaining_mem (m : TransactionManager)
    (txs : List WithdrawTransaction) (r : WithdrawTransaction)
    (hr : r ∈ get_remaining_txes m txs) : r ∈ txs ∧ r.status ≠ "pending" := by
  unfold get_remaining_txes at hr
  by_cases hq : (m.queue_type == "erc20") = true
  · rw [if_pos hq, mem_sortBy, List.mem_filter, List.mem_filter] at hr
    refine ⟨hr.1.1, ?_⟩
    intro hp
    have := hr.2
    rw [hp] at this
    simp at this
  · rw [if_neg hq, mem_sortBy, List.mem_filter, List.mem_filter] at hr
    refine ⟨hr.1.1, ?_⟩
    intro hp
    have := hr.2
    rw [hp] at this
    simp at this

theorem tx_set_status_self (u : WithdrawTransaction) (s : String)
    (h : u.status = s) : ({ u with status := s } : WithdrawTransaction) = u := by
  cases u
  simp_all

theorem tx_set_status_error_self (u : WithdrawTransaction) (s e : String)
    (h1 : u.status = s) (h2 : u.error_message = e) :
    ({ u with status := s, error_message := e } : WithdrawTransaction) = u := by
  cases u
  simp_all

/-- C9: second invocations on already-terminal entities change nothing:
set_next_tx is a no-op on a completed queue entry and idempotent in
general, the cycle completion check is idempotent, each confirmation method
is a no-op on a COMPLETED transaction, and both confirmation methods are
idempotent under the same external responses, so the FAILED, SKIPPED and
SENT_TX_NOT_FOUND terminal writes are never changed by a repeat call. -/
theorem c9_terminal_idempotence :
    (∀ (m : TransactionManager) (txs : List WithdrawTransaction),
      m.completed = true → set_next_tx m txs = m) ∧
    (∀ (m : TransactionManager) (txs : List WithdrawTransaction),
      (txs.map (fun u => u.id)).Nodup →
      set_next_tx (set_next_tx m txs) txs = set_next_tx m txs) ∧
    (∀ (c : WithdrawCycle) (txs : List WithdrawTransaction),
      check_for_completion (check_for_completion c txs) txs =
        check_for_completion c txs) ∧
    (∀ (t : WithdrawTransaction) (ext : Ext), t.status = "completed" →
      tx_confirm_eth_erc20 t ext = t ∧ tx_confirm_btc t ext = t) ∧
    (∀ (t : WithdrawTransaction) (ext : Ext),
      tx_confirm_eth_erc20 (tx_confirm_eth_erc20 t ext) ext =
        tx_confirm_eth_erc20 t ext) ∧
    (∀ (t : WithdrawTransaction) (ext : Ext),
      tx_confirm_btc (tx_confirm_btc t ext) ext = tx_confirm_btc t ext) := by
  refine ⟨?_, ?_, ?_, ?_, ?_, ?_⟩
  · intro m txs hc
    unfold set_next_tx
    rw [if_pos hc]
  · intro m txs hnd
    by_cases hc : m.completed = true
    · have h1 : set_next_tx m txs = m := by unfold set_next_tx; rw [if_pos hc]
      rw [h1]
      exact h1
    · by_cases hf : is_current_tx_finished m txs = true
      · cases hrem : get_remaining_txes m txs with
        | nil =>
            have h1 : set_next_tx m txs =
                { m with tx_to_process := none, completed := true } := by
              unfold set_next_tx
              rw [if_neg hc, if_neg (by simp [hf]), hrem]
            have h2 : set_next_tx
                ({ m with tx_to_process := none, completed := true }) txs =
                { m with tx_to_process := none, completed := true } := by
              unfold set_next_tx
              rw [if_pos rfl]
            rw [h1, h2]
        | cons r rest =>
            have hrmem := remaining_mem m txs r
              (by rw [hrem]; exact List.mem_cons_self r rest)
            have h1 : set_next_tx m txs = { m with tx_to_process := some r.id } := by
              unfold set_next_tx
              rw [if_neg hc, if_neg (by simp [hf]), hrem]
            have hfin2 : is_current_tx_finished
                ({ m with tx_to_process := some r.id }) txs = true := by
              show (match txs.find? (fun u => u.id == r.id) with
                | none => true
                | some u => u.status != "pending") = true
              rw [find?_id_unique txs r hnd hrmem.1]
              simp [bne, hrmem.2]
            have hrem2 : get_remaining_txes
                ({ m with tx_to_process := some r.id }) txs = r :: rest := by
              rw [show get_remaining_txes
                ({ m with tx_to_process := some r.id }) txs =
                get_remaining_txes m txs from rfl, hrem]
            have h2 : set_next_tx ({ m with tx_to_process := some r.id }) txs =
                { m with tx_to_process := some r.id } := by
              unfold set_next_tx
              rw [if_neg hc, if_neg (by simp [hfin2]), hrem2]
            rw [h1, h2]
      · have h1 : set_next_tx m txs = m := by
          unfold set_next_tx
          rw [if_neg hc, if_pos (by simp [hf])]
        rw [h1]
        exact h1
  · intro c txs
    have key : ∀ d : WithdrawCycle, d.id = c.id → check_for_completion d txs =
        if ((txs.filter (fun u => u.withdraw_cycle == c.id &&
          (u.status == "created" || u.status == "pending" ||
           u.status == "waiting_for_erc20_transfers" ||
           u.status == "waiting_for_gas_refill"))).length > 0) then d
        else { d with status := "completed" } := by
      intro d hd
      unfold check_for_completion
      rw [hd]
    by_cases h : ((txs.filter (fun u => u.withdraw_cycle == c.id &&
        (u.status == "created" || u.status == "pending" ||
         u.status == "waiting_for_erc20_transfers" ||
         u.status == "waiting_for_gas_refill"))).length > 0)
    · rw [key c rfl, if_pos h, key c rfl, if_pos h]
    · rw [key c rfl, if_neg h, key ({ c with status := "completed" }) rfl,
        if_neg h]
  · intro t ext hc
    constructor
    · unfold tx_confirm_eth_erc20
      rw [if_pos hc]
    · unfold tx_confirm_btc
      rw [if_pos hc]
  · intro t ext
    by_cases hc : t.status = "completed"
    · have h1 : tx_confirm_eth_erc20 t ext = t := by
        unfold tx_confirm_eth_erc20
        rw [if_pos hc]
      rw [h1]
      exact h1
    · cases hr : ext.receipt with
      | raised =>
          have h1 : tx_confirm_eth_erc20 t ext = t := by
            unfold tx_confirm_eth_erc20
            rw [if_neg hc]
            simp only [hr]
          rw [h1]
          exact h1
      | notFound =>
          cases hrel : t.relayed_at with
          | none =>
              have h1 : tx_confirm_eth_erc20 t ext = t := by
                unfold tx_confirm_eth_erc20 check_confirmation_time
                rw [if_neg hc]
                simp only [hr, hrel]
              rw [h1]
              exact h1
          | some rt =>
              by_cases htime : ext.now < rt + 2
              · have h1 : tx_confirm_eth_erc20 t ext = t := by
                  unfold tx_confirm_eth_erc20 check_confirmation_time
                  rw [if_neg hc]
                  simp only [hr, hrel, if_pos htime]
                rw [h1]
                exact h1
              · have h1 : tx_confirm_eth_erc20 t ext =
                    { t with status := "sent_tx_not_found" } := by
                  unfold tx_confirm_eth_erc20 check_confirmation_time
                  rw [if_neg hc]
                  simp only [hr, hrel, if_neg htime]
                rw [h1]
                have hne : ¬ ({ t with status := "sent_tx_not_found" }
                    : WithdrawTransaction).status = "completed" := by simp
                unfold tx_confirm_eth_erc20 check_confirmation_time
                rw [if_neg hne]
                simp only [hr, hrel, if_neg htime]
      | found z =>
          cases z with
          | true =>
              have h1 : tx_confirm_eth_erc20 t ext =
                  { t with status := "failed", error_message := "reverted" } := by
                unfold tx_confirm_eth_erc20
                rw [if_neg hc]
                simp [hr]
              rw [h1]
              have hne : ¬ ({ t with status := "failed", error_message := "reverted" } : WithdrawTransaction).status = "completed" := by simp
              unfold tx_confirm_eth_erc20
              rw [if_neg hne]
              simp [hr]
          | false =>
              have h1 : tx_confirm_eth_erc20 t ext =
                  { t with status := "completed" } := by
                unfold tx_confirm_eth_erc20
                rw [if_neg hc]
                simp [hr]
              rw [h1]
              unfold tx_confirm_eth_erc20
              rw [if_pos rfl]
  · intro t ext
    by_cases hc : t.status = "completed"
    · have h1 : tx_confirm_btc t ext = t := by
        unfold tx_confirm_btc
        rw [if_pos hc]
      rw [h1]
      exact h1
    · cases hr : ext.btc_confirmations with
      | error e =>
          cases hrel : t.relayed_at with
          | none =>
              have h1 : tx_confirm_btc t ext = t := by
                unfold tx_confirm_btc check_confirmation_time
                rw [if_neg hc]
                simp only [hr, hrel]
              rw [h1]
              exact h1
          | some rt =>
              by_cases htime : ext.now < rt + 3
              · have h1 : tx_confirm_btc t ext = t := by
                  unfold tx_confirm_btc check_confirmation_time
                  rw [if_neg hc]
                  simp only [hr, hrel, if_pos htime]
                rw [h1]
                exact h1
              · have h1 : tx_confirm_btc t ext =
                    { t with status := "sent_tx_not_found" } := by
                  unfold tx_confirm_btc check_confirmation_time
                  rw [if_neg hc]
                  simp only [hr, hrel, if_neg htime]
                rw [h1]
                have hne : ¬ ({ t with status := "sent_tx_not_found" }
                    : WithdrawTransaction).status = "completed" := by simp
                unfold tx_confirm_btc check_confirmation_time
                rw [if_neg hne]
                simp only [hr, hrel, if_neg htime]
      | ok cf =>
          by_cases hcf : cf > 3
          · have h1 : tx_confirm_btc t ext = { t with status := "completed" } := by
              unfold tx_confirm_btc
              rw [if_neg hc]
              simp only [hr, if_pos hcf]
            rw [h1]
            unfold tx_confirm_btc
            rw [if_pos rfl]
          · have h1 : tx_confirm_btc t ext = t := by
              unfold tx_confirm_btc
              rw [if_neg hc]
              simp only [hr, if_neg hcf]
            rw [h1]
            exact h1

/-- C9 witness: concrete instances: a completed queue entry is untouched, a
fresh advance is idempotent, and a COMPLETED transaction is untouched by
confirmation. -/
theorem c9_witness :
    (set_next_tx ⟨0, 0, none, none, "gas_refill", true⟩ [] =
      ⟨0, 0, none, none, "gas_refill", true⟩) ∧
    (set_next_tx (set_next_tx (mkMgr 0 0 none "gas_refill")
        [mkTx 1 0 0 "ETH" "created" "gas_refill" (some 1)])
        [mkTx 1 0 0 "ETH" "created" "gas_refill" (some 1)] =
      set_next_tx (mkMgr 0 0 none "gas_refill")
        [mkTx 1 0 0 "ETH" "created" "gas_refill" (some 1)]) ∧
    (tx_confirm_eth_erc20 (mkTx 0 0 0 "USDT" "completed" "erc20" none) extBase =
      mkTx 0 0 0 "USDT" "completed" "erc20" none) :=
  ⟨c9_terminal_idempotence.1 ⟨0, 0, none, none, "gas_refill", true⟩ [] rfl,
   c9_terminal_idempotence.2.1 (mkMgr 0 0 none "gas_refill")
     [mkTx 1 0 0 "ETH" "created" "gas_refill" (some 1)] (by decide),
   (c9_terminal_idempotence.2.2.2.1 (mkTx 0 0 0 "USDT" "completed" "erc20" none)
     extBase rfl).1⟩

theorem find?_of_filter_nil {α : Type} (p q : α → Bool)
    (hpq : ∀ u, p u = true → q u = true) (l : List α)
    (h : l.filter q = []) : l.find? p = none := by
  induction l with
  | nil => rfl
  | cons x xs ih =>
      rw [List.filter_cons] at h
      by_cases hq : q x = true
      · rw [if_pos hq] at h
        cases h
      · rw [if_neg hq] at h
        rw [List.find?_cons]
        have hp : p x = false := by
          cases hpx : p x
          · rfl
          · exact absurd (hpq x hpx) hq
        rw [hp]
        exact ih h

theorem find?_of_filter_singleton {α : Type} (p q : α → Bool)
    (hpq : ∀ u, p u = true → q u = true) (l : List α) (g : α)
    (h : l.filter q = [g]) (hpg : p g = true) : l.find? p = some g := by
  induction l with
  | nil => cases h
  | cons x xs ih =>
      rw [List.filter_cons] at h
      by_cases hq : q x = true
      · rw [if_pos hq] at h
        injection h with h1 h2
        subst h1
        rw [List.find?_cons, hpg]
      · rw [if_neg hq] at h
        rw [List.find?_cons]
        have hp : p x = false := by
          cases hpx : p x
          · rfl
          · exact absurd (hpq x hpx) hq
        rw [hp]
        exact ih h

theorem map_id_replaceById (l : List WithdrawTransaction) (i : Nat)
    (y : WithdrawTransaction) (hy : y.id = i) :
    (replaceById l i y).map (fun u => u.id) = l.map (fun u => u.id) := by
  unfold replaceById
  rw [List.map_map]
  apply List.map_congr_left
  intro u _
  by_cases h : (u.id == i) = true
  · show (if (u.id == i) = true then y else u).id = u.id
    rw [if_pos h, hy]
    exact (beq_iff_eq.mp h).symm
  · show (if (u.id == i) = true then y else u).id = u.id
    rw [if_neg h]

theorem filter_replaceById_singleton (l : List WithdrawTransaction)
    (q : WithdrawTransaction → Bool) (g y : WithdrawTransaction)
    (hnd : (l.map (fun u => u.id)).Nodup)
    (hflt : l.filter q = [g]) (hy : y.id = g.id) (hqy : q y = true) :
    (replaceById l g.id y).filter q = [y] := by
  induction l with
  | nil => cases hflt
  | cons x xs ih =>
      rw [List.map_cons, List.nodup_cons] at hnd
      rw [List.filter_cons] at hflt
      unfold replaceById
      rw [List.map_cons, List.filter_cons]
      by_cases hqx : q x = true
      · rw [if_pos hqx] at hflt
        injection hflt with h1 h2
        subst h1
        have hbeq : (x.id == x.id) = true := by simp
        simp only [hbeq, if_true, hqy]
        have hrest : xs.map (fun u => if (u.id == x.id) = true then y else u)
            = xs := by
          have : ∀ u ∈ xs, (if (u.id == x.id) = true then y else u) = u := by
            intro u hu
            have : ¬ (u.id == x.id) = true := by
              simp only [beq_iff_eq]
              intro he
              exact hnd.1 (he ▸ List.mem_map_of_mem (fun v => v.id) hu)
            rw [if_neg this]
          calc xs.map (fun u => if (u.id == x.id) = true then y else u)
              = xs.map id := List.map_congr_left (by simpa using this)
            _ = xs := List.map_id xs
        rw [hrest, h2]
      · rw [if_neg hqx] at hflt
        have hg_mem : g ∈ xs := by
          have hgf : g ∈ xs.filter q := by
            rw [hflt]
            exact List.mem_singleton.mpr rfl
          exact List.mem_of_mem_filter hgf
        have hxg : ¬ (x.id == g.id) = true := by
          simp only [beq_iff_eq]
          intro he
          exact hnd.1 (he ▸ List.mem_map_of_mem (fun v => v.id) hg_mem)
        rw [if_neg hxg, if_neg hqx]
        exact ih hnd.2 hflt

theorem filter_replaceById_of_not (l : List WithdrawTransaction)
    (q : WithdrawTransaction → Bool) (i : Nat) (y : WithdrawTransaction)
    (h : ∀ u ∈ l, u.id = i → q u = false) (hqy : q y = false) :
    (replaceById l i y).filter q = l.filter q := by
  induction l with
  | nil => rfl
  | cons x xs ih =>
      unfold replaceById at ih ⊢
      rw [List.map_cons, List.filter_cons, List.filter_cons]
      by_cases hx : (x.id == i) = true
      · have hqx : q x = false := h x (List.mem_cons_self x xs) (beq_iff_eq.mp hx)
        rw [if_pos hx]
        simp only [hqy, hqx, Bool.false_eq_true, if_false]
        exact ih (fun u hu hui => h u (List.mem_cons_of_mem x hu) hui)
      · rw [if_neg hx]
        have hih := ih (fun u hu hui => h u (List.mem_cons_of_mem x hu) hui)
        by_cases hqx : q x = true
        · rw [if_pos hqx, if_pos hqx, hih]
        · rw [if_neg hqx, if_neg hqx]
          exact hih

theorem sortedInsert_perm {α : Type} (le : α → α → Bool) (x : α)
    (l : List α) : (sortedInsert le x l).Perm (x :: l) := by
  induction l with
  | nil => exact List.Perm.refl _
  | cons y ys ih =>
      unfold sortedInsert
      by_cases h : le x y = true
      · rw [if_pos h]
      · rw [if_neg h]
        exact List.Perm.trans (List.Perm.cons y ih) (List.Perm.swap x y ys)

theorem sortBy_perm {α : Type} (le : α → α → Bool) (l : List α) :
    (sortBy le l).Perm l := by
  induction l with
  | nil => exact List.Perm.refl _
  | cons z zs ih =>
      show (sortedInsert le z (sortBy le zs)).Perm (z :: zs)
      exact (sortedInsert_perm le z (sortBy le zs)).trans (List.Perm.cons z ih)

theorem countTokens_sortBy (le : String → String → Bool) (cs : List String) :
    countTokens (sortBy le cs) = countTokens cs := by
  unfold countTokens
  exact List.Perm.length_eq ((sortBy_perm le cs).filter _)

theorem nodup_sortBy (le : String → String → Bool) (l : List String)
    (h : l.Nodup) : (sortBy le l).Nodup :=
  ((sortBy_perm le l).nodup_iff).mpr h

theorem nodup_two_universe (l : List String) (hnd : l.Nodup)
    (hsub : ∀ x ∈ l, x = "USDT" ∨ x = "USDC") : l.length ≤ 2 := by
  rcases l with _ | ⟨x, _ | ⟨y, _ | ⟨z, rest⟩⟩⟩
  · simp
  · simp
  · simp
  · exfalso
    rcases hsub x (by simp) with hx | hx <;>
      rcases hsub y (by simp) with hy | hy <;>
        rcases hsub z (by simp) with hz | hz <;>
          simp_all

theorem countTokens_le_two (cs : List String) (hnd : cs.Nodup) :
    countTokens cs ≤ 2 := by
  unfold countTokens
  apply nodup_two_universe
  · exact hnd.filter _
  · intro x hx
    rw [List.mem_filter] at hx
    have h2 := hx.2
    simp only [decide_eq_true_eq, ERC20_CURRENCIES, List.mem_cons,
      List.mem_singleton, List.not_mem_nil, or_false] at h2
    exact h2

theorem txIdsOk_append (st : BuildState) (t : WithdrawTransaction)
    (ht : t.id = st.nextTxId) (h : TxIdsOk st) :
    TxIdsOk { st with nextTxId := st.nextTxId + 1, txs := st.txs ++ [t] } := by
  constructor
  · intro u hu
    rcases List.mem_append.mp hu with h1 | h1
    · exact Nat.lt_succ_of_lt (h.1 u h1)
    · rw [List.mem_singleton.mp h1, ht]
      exact Nat.lt_succ_self _
  · show ((st.txs ++ [t]).map (fun u => u.id)).Nodup
    rw [List.map_append, List.nodup_append]
    refine ⟨h.2, List.nodup_singleton _, ?_⟩
    intro b hb hb2
    rw [List.map_singleton, List.mem_singleton] at hb2
    rw [List.mem_map] at hb
    obtain ⟨u, hu, hub⟩ := hb
    have := h.1 u hu
    omega

theorem txIdsOk_replace (st : BuildState) (g y : WithdrawTransaction)
    (hy : y.id = g.id) (h : TxIdsOk st) :
    TxIdsOk { st with txs := replaceById st.txs g.id y } := by
  constructor
  · intro u hu
    show u.id < st.nextTxId
    unfold replaceById at hu
    rw [List.mem_map] at hu
    obtain ⟨v, hv, huv⟩ := hu
    by_cases hb : (v.id == g.id) = true
    · rw [if_pos hb] at huv
      subst huv
      rw [hy, ← beq_iff_eq.mp hb]
      exact h.1 v hv
    · rw [if_neg hb] at huv
      subst huv
      exact h.1 v hv
  · show ((replaceById st.txs g.id y).map (fun u => u.id)).Nodup
    rw [map_id_replaceById st.txs g.id y hy]
    exact h.2

theorem txIdsOk_ite (P : Prop) [Decidable P] (st : BuildState) (n : Nat)
    (ms : List TransactionManager) (h : TxIdsOk st) :
    TxIdsOk (if P then st else { st with nextMgrId := n, mgrs := ms }) := by
  by_cases hp : P
  · rw [if_pos hp]
    exact h
  · rw [if_neg hp]
    exact h

theorem txs_of_ite (P : Prop) [Decidable P] (st : BuildState) (n : Nat)
    (ms : List TransactionManager) :
    (if P then st else { st with nextMgrId := n, mgrs := ms }).txs = st.txs := by
  by_cases hp : P
  · rw [if_pos hp]
  · rw [if_neg hp]

theorem processCurrency_ids (currencies : List String) (a : Nat) (c : String)
    (st : BuildState) (h : TxIdsOk st) :
    TxIdsOk (processCurrency 0 currencies a st c) := by
  unfold processCurrency
  by_cases hc1 : c = "ETH"
  · rw [if_pos hc1]
    by_cases hc2 : currencies.filter (fun x => !(x ∈ NATIVE_CURRENCIES : Bool)) = []
    · rw [if_pos hc2]
      exact h
    · rw [if_neg hc2]
      exact txIdsOk_append st _ rfl h
  · rw [if_neg hc1]
    by_cases hc2 : c ∈ ERC20_CURRENCIES
    · rw [if_pos hc2]
      cases hfind : st.txs.find? (gasLookup 0 a) with
      | some g =>
          exact txIdsOk_append _ _ rfl (txIdsOk_ite _ _ _ _ (txIdsOk_ite _ _ _ _
            (txIdsOk_replace st g _ rfl h)))
      | none =>
          exact txIdsOk_append _ _ rfl (txIdsOk_ite _ _ _ _ (txIdsOk_ite _ _ _ _
            (txIdsOk_append st _ rfl h)))
    · rw [if_neg hc2]
      exact txIdsOk_append st _ rfl h

theorem gasLookup_implies_gasFilter (a : Nat) :
    ∀ u, gasLookup 0 a u = true → gasFilter a u = true := by
  intro u h
  unfold gasLookup at h
  unfold gasFilter
  simp only [Bool.and_eq_true] at h ⊢
  exact ⟨h.1.1.1, h.2⟩

theorem gasShape_of_eq (txs txs2 : List WithdrawTransaction) (a k : Nat)
    (he : gasSet txs2 a = gasSet txs a) (h : GasShape txs a k) :
    GasShape txs2 a k := by
  cases k with
  | zero =>
      show gasSet txs2 a = []
      rw [he]
      exact h
  | succ j =>
      obtain ⟨g, hg, h2, h3⟩ := h
      exact ⟨g, by rw [he]; exact hg, h2, h3⟩

theorem gasSet_append_erc20 (txs : List WithdrawTransaction) (a : Nat)
    (i cyc a2 : Nat) (cur stt : String) (cnt : Option Nat) :
    gasSet (txs ++ [mkTx i cyc a2 cur stt "erc20" cnt]) a = gasSet txs a := by
  unfold gasSet gasFilter mkTx
  simp

theorem gasSet_append_native (txs : List WithdrawTransaction) (a : Nat)
    (i cyc a2 : Nat) (cur stt : String) (cnt : Option Nat) :
    gasSet (txs ++ [mkTx i cyc a2 cur stt "native" cnt]) a = gasSet txs a := by
  unfold gasSet gasFilter mkTx
  simp

theorem gasSet_append_refill (txs : List WithdrawTransaction) (a i : Nat) :
    gasSet (txs ++ [mkTx i 0 a "ETH" "created" "gas_refill" (some 1)]) a =
      gasSet txs a ++ [mkTx i 0 a "ETH" "created" "gas_refill" (some 1)] := by
  unfold gasSet gasFilter mkTx
  simp

theorem txs_of_ite2 (P : Prop) [Decidable P] (n1 m1 n2 m2 : Nat)
    (txs : List WithdrawTransaction) (ms1 ms2 : List TransactionManager) :
    (if P then BuildState.mk n1 m1 txs ms1 else BuildState.mk n2 m2 txs ms2).txs
      = txs := by
  by_cases hp : P
  · rw [if_pos hp]
  · rw [if_neg hp]

theorem gas_step (currencies : List String) (a : Nat) (c : String)
    (st : BuildState) (k : Nat) (hids : TxIdsOk st) (hsh : GasShape st.txs a k)
    (hk : k + (if c ∈ ERC20_CURRENCIES then 1 else 0) ≤ 2) :
    GasShape (processCurrency 0 currencies a st c).txs a
      (k + (if c ∈ ERC20_CURRENCIES then 1 else 0)) := by
  unfold processCurrency
  by_cases hc1 : c = "ETH"
  · have hcne : c ∉ ERC20_CURRENCIES := by rw [hc1]; decide
    rw [if_pos hc1, if_neg hcne, Nat.add_zero]
    by_cases hc2 : currencies.filter (fun x => !(x ∈ NATIVE_CURRENCIES : Bool)) = []
    · rw [if_pos hc2]
      exact hsh
    · rw [if_neg hc2]
      exact gasShape_of_eq _ _ _ _ (gasSet_append_native _ _ _ _ _ _ _ _) hsh
  · rw [if_neg hc1]
    by_cases hc2 : c ∈ ERC20_CURRENCIES
    · rw [if_pos hc2] at hk ⊢
      rw [if_pos hc2]
      cases k with
      | zero =>
          have hempty : gasSet st.txs a = [] := hsh
          have hfind : st.txs.find? (gasLookup 0 a) = none :=
            find?_of_filter_nil _ _ (gasLookup_implies_gasFilter a) _ hempty
          rw [hfind]
          simp only [apply_ite BuildState.txs, ite_self]
          refine ⟨mkTx st.nextTxId 0 a "ETH" "created" "gas_refill" (some 1),
            ?_, rfl, rfl⟩
          rw [gasSet_append_erc20, gasSet_append_refill, hempty]
          rfl
      | succ j =>
          have hj : j = 0 := by omega
          subst hj
          obtain ⟨g, hset, hcur, hcnt⟩ := hsh
          have hmemflt : gasFilter a g = true := by
            have hmem : g ∈ gasSet st.txs a := by
              rw [hset]
              exact List.mem_singleton.mpr rfl
            exact (List.mem_filter.mp hmem).2
          have hlookup : gasLookup 0 a g = true := by
            unfold gasLookup
            unfold gasFilter at hmemflt
            simp only [Bool.and_eq_true] at hmemflt ⊢
            refine ⟨⟨⟨hmemflt.1, by simp [hcur]⟩, by simp [hcnt]⟩, hmemflt.2⟩
          have hfind : st.txs.find? (gasLookup 0 a) = some g :=
            find?_of_filter_singleton _ _ (gasLookup_implies_gasFilter a) _ g
              hset hlookup
          rw [hfind]
          simp only [apply_ite BuildState.txs, ite_self]
          refine ⟨{ g with gas_tx_count := Option.map (fun x => x + 1) g.gas_tx_count },
            ?_, hcur, ?_⟩
          · rw [gasSet_append_erc20]
            exact filter_replaceById_singleton st.txs (gasFilter a) g _
              hids.2 hset rfl hmemflt
          · rw [hcnt]
            rfl
    · rw [if_neg hc2] at hk ⊢
      rw [if_neg hc2, Nat.add_zero]
      by_cases hn : c ∈ NATIVE_CURRENCIES
      · rw [if_pos hn]
        exact gasShape_of_eq _ _ _ _ (gasSet_append_native _ _ _ _ _ _ _ _) hsh
      · rw [if_neg hn]
        exact gasShape_of_eq _ _ _ _ (gasSet_append_erc20 _ _ _ _ _ _ _ _) hsh

theorem countTokens_cons (c : String) (cs : List String) :
    countTokens (c :: cs) = (if c ∈ ERC20_CURRENCIES then 1 else 0) +
      countTokens cs := by
  unfold countTokens
  rw [List.filter_cons]
  by_cases hc : c ∈ ERC20_CURRENCIES
  · simp [hc, Nat.add_comm]
  · simp [hc]

theorem gas_loop (cs currencies : List String) (a : Nat) (st : BuildState)
    (k : Nat) (hids : TxIdsOk st) (hsh : GasShape st.txs a k)
    (hk : k + countTokens cs ≤ 2) :
    TxIdsOk (cs.foldl (processCurrency 0 currencies a) st) ∧
    GasShape (cs.foldl (processCurrency 0 currencies a) st).txs a
      (k + countTokens cs) := by
  induction cs generalizing st k with
  | nil =>
      refine ⟨hids, ?_⟩
      have h0 : countTokens ([] : List String) = 0 := rfl
      rw [List.foldl_nil, h0, Nat.add_zero]
      exact hsh
  | cons c cs ih =>
      rw [List.foldl_cons]
      rw [countTokens_cons] at hk ⊢
      rw [← Nat.add_assoc] at hk ⊢
      exact ih (processCurrency 0 currencies a st c)
        (k + if c ∈ ERC20_CURRENCIES then 1 else 0)
        (processCurrency_ids currencies a c st hids)
        (gas_step currencies a c st k hids hsh (by omega)) hk

theorem gasSet_append_refill_other (txs : List WithdrawTransaction)
    (a a2 i : Nat) (hne : a2 ≠ a) :
    gasSet (txs ++ [mkTx i 0 a "ETH" "created" "gas_refill" (some 1)]) a2 =
      gasSet txs a2 := by
  unfold gasSet gasFilter mkTx
  simp [Ne.symm hne]

theorem gasSet_other_step (currencies : List String) (a a2 : Nat) (c : String)
    (st : BuildState) (hids : TxIdsOk st) (hne : a2 ≠ a) :
    gasSet (processCurrency 0 currencies a st c).txs a2 = gasSet st.txs a2 := by
  unfold processCurrency
  by_cases hc1 : c = "ETH"
  · rw [if_pos hc1]
    by_cases hc2 : currencies.filter (fun x => !(x ∈ NATIVE_CURRENCIES : Bool)) = []
    · rw [if_pos hc2]
    · rw [if_neg hc2]
      exact gasSet_append_native _ _ _ _ _ _ _ _
  · rw [if_neg hc1]
    by_cases hc2 : c ∈ ERC20_CURRENCIES
    · rw [if_pos hc2]
      cases hfind : st.txs.find? (gasLookup 0 a) with
      | none =>
          simp only [apply_ite BuildState.txs, ite_self]
          rw [gasSet_append_erc20]
          exact gasSet_append_refill_other _ _ _ _ hne
      | some g =>
          have hg : gasLookup 0 a g = true := List.find?_some hfind
          have hgmem : g ∈ st.txs := List.mem_of_find?_eq_some hfind
          have hacc : g.account = a := by
            unfold gasLookup at hg
            simp only [Bool.and_eq_true, beq_iff_eq] at hg
            exact hg.1.1.1.2
          have hflt : gasFilter a2 g = false := by
            unfold gasFilter
            have : (g.account == a2) = false := by
              rw [beq_eq_false_iff_ne, hacc]
              exact Ne.symm hne
            rw [this]
            simp
          simp only [apply_ite BuildState.txs, ite_self]
          rw [gasSet_append_erc20]
          apply filter_replaceById_of_not
          · intro u hu hui
            have : u = g := txid_inj hids.2 hu hgmem hui
            rw [this]
            exact hflt
          · exact hflt
    · rw [if_neg hc2]
      by_cases hn : c ∈ NATIVE_CURRENCIES
      · rw [if_pos hn]
        exact gasSet_append_native _ _ _ _ _ _ _ _
      · rw [if_neg hn]
        exact gasSet_append_erc20 _ _ _ _ _ _ _ _

theorem gasSet_other_loop (cs currencies : List String) (a2 b : Nat)
    (st : BuildState) (hids : TxIdsOk st) (hne : a2 ≠ b) :
    gasSet (cs.foldl (processCurrency 0 currencies b) st).txs a2 =
      gasSet st.txs a2 ∧
    TxIdsOk (cs.foldl (processCurrency 0 currencies b) st) := by
  induction cs generalizing st with
  | nil => exact ⟨rfl, hids⟩
  | cons c cs ih =>
      rw [List.foldl_cons]
      obtain ⟨h1, h2⟩ := ih (processCurrency 0 currencies b st c)
        (processCurrency_ids currencies b c st hids)
      exact ⟨h1.trans (gasSet_other_step currencies b a2 c st hids hne), h2⟩

theorem gasSet_other_accounts (bs : List Nat) (currencies : List String)
    (a : Nat) (st : BuildState) (hids : TxIdsOk st) (hnot : a ∉ bs) :
    gasSet (bs.foldl (processAccount 0 currencies) st).txs a =
      gasSet st.txs a ∧
    TxIdsOk (bs.foldl (processAccount 0 currencies) st) := by
  induction bs generalizing st with
  | nil => exact ⟨rfl, hids⟩
  | cons b bs ih =>
      rw [List.foldl_cons]
      have hne : a ≠ b := fun h => hnot (h ▸ List.mem_cons_self b bs)
      obtain ⟨h1, h2⟩ := gasSet_other_loop currencies currencies a b st hids hne
      obtain ⟨h3, h4⟩ := ih (processAccount 0 currencies st b) h2
        (fun h => hnot (List.mem_cons_of_mem b h))
      exact ⟨h3.trans h1, h4⟩

theorem build_gasSet (accounts : List Nat) (currencies : List String)
    (st : BuildState) (a : Nat) (hids : TxIdsOk st) (hnd : accounts.Nodup)
    (htok : countTokens currencies ≤ 2) (hinit : gasSet st.txs a = [])
    (ha : a ∈ accounts) :
    GasShape (accounts.foldl (processAccount 0 currencies) st).txs a
      (countTokens currencies) := by
  induction accounts generalizing st with
  | nil => cases ha
  | cons b bs ih =>
      rw [List.foldl_cons]
      rw [List.nodup_cons] at hnd
      rcases List.mem_cons.mp ha with rfl | hmem
      · obtain ⟨hids1, hsh1⟩ := gas_loop currencies currencies a st 0 hids
          hinit (by omega)
        rw [Nat.zero_add] at hsh1
        obtain ⟨hpres, _⟩ := gasSet_other_accounts bs currencies a
          (processAccount 0 currencies st a) hids1 hnd.1
        exact gasShape_of_eq _ _ _ _ hpres hsh1
      · have hne : a ≠ b := fun h => hnd.1 (h ▸ hmem)
        obtain ⟨h1, h2⟩ := gasSet_other_loop currencies currencies a b st hids hne
        exact ih (processAccount 0 currencies st b) h2 hnd.2 (h1.trans hinit) hmem

/-- C3: for every cycle created from a supported currency list and every
purchasing account, when at least one token currency is requested there is
exactly one GAS_REFILL row for that account and cycle, whatever the number
of distinct token currencies, and its gas_tx_count equals that number; with
no token currency requested there is none. -/
theorem c3_one_gas_refill_per_account (cs : List String) (accounts : List Nat)
    (a : Nat) (s : SysState)
    (hsup : ∀ c ∈ cs, c ∈ AVAILABLE_CURRENCIES) (hne : cs ≠ [])
    (hacc : accounts.Nodup) (ha : a ∈ accounts)
    (hok : create_withdraw_cycle (some cs) accounts = Except.ok s) :
    (0 < countTokens cs.dedup →
      ∃ g, gasSet s.txs a = [g] ∧
        g.gas_tx_count = some (countTokens cs.dedup)) ∧
    (countTokens cs.dedup = 0 → gasSet s.txs a = []) := by
  have hall : cs.dedup.all (fun c => decide (c ∈ AVAILABLE_CURRENCIES)) = true := by
    rw [List.all_eq_true]
    intro x hx
    exact decide_eq_true (hsup x (List.mem_dedup.mp hx))
  unfold create_withdraw_cycle at hok
  simp only [if_neg hne, if_pos hall] at hok
  have hs : s = buildFrom cs.dedup accounts := (Except.ok.inj hok).symm
  subst hs
  unfold buildFrom
  have hids0 : TxIdsOk ⟨0, 0, [], []⟩ :=
    ⟨fun u hu => absurd hu (List.not_mem_nil u), List.nodup_nil⟩
  have htok : countTokens (sortBy (fun a b => decide (a ≤ b)) cs.dedup) ≤ 2 := by
    rw [countTokens_sortBy]
    exact countTokens_le_two cs.dedup (List.nodup_dedup cs)
  have hshape := build_gasSet accounts
    (sortBy (fun a b => decide (a ≤ b)) cs.dedup) ⟨0, 0, [], []⟩ a hids0 hacc
    htok rfl ha
  rw [countTokens_sortBy] at hshape
  constructor
  · intro hpos
    cases hct : countTokens cs.dedup with
    | zero => omega
    | succ j =>
        rw [hct] at hshape
        obtain ⟨g, hg1, _, hg3⟩ := hshape
        exact ⟨g, hg1, hg3⟩
  · intro hzero
    rw [hzero] at hshape
    exact hshape

/-- C3 witness: two accounts requesting USDT, BTC, USDC (USDT twice): for
account one there is a single gas-refill row counting two tokens. -/
theorem c3_witness :
    0 < countTokens (["USDT", "BTC", "USDC", "USDT"].dedup) ∧
    ∃ g, gasSet (buildFrom (["USDT", "BTC", "USDC", "USDT"].dedup) [0, 1]).txs 1
        = [g] ∧
      g.gas_tx_count = some (countTokens (["USDT", "BTC", "USDC", "USDT"].dedup)) :=
  ⟨by decide,
   (c3_one_gas_refill_per_account ["USDT", "BTC", "USDC", "USDT"] [0, 1] 1
     (buildFrom (["USDT", "BTC", "USDC", "USDT"].dedup) [0, 1]) (by decide)
     (by decide) (by decide) (by decide) (by rfl)).1 (by decide)⟩

theorem bInv_append_tx (st : BuildState) (t : WithdrawTransaction)
    (hid : t.id = st.nextTxId) (hst : t.status ≠ "pending")
    (herc : t.tx_type = "erc20" → t.status ≠ "created") (h : BInv st) :
    BInv { st with nextTxId := st.nextTxId + 1, txs := st.txs ++ [t] } := by
  refine ⟨txIdsOk_append st t hid h.1, ?_, h.2.2.1, h.2.2.2⟩
  intro u hu
  rcases List.mem_append.mp hu with h1 | h1
  · exact h.2.1 u h1
  · rw [List.mem_singleton.mp h1]
    exact ⟨hst, herc⟩

theorem bInv_bump (st : BuildState) (g y : WithdrawTransaction)
    (hg : g ∈ st.txs) (hy : y.id = g.id) (hys : y.status = g.status)
    (hyt : y.tx_type = g.tx_type) (h : BInv st) :
    BInv { st with txs := replaceById st.txs g.id y } := by
  refine ⟨txIdsOk_replace st g y hy h.1, ?_, h.2.2.1, h.2.2.2⟩
  intro u hu
  have hu2 : u ∈ (replaceById st.txs g.id y) := hu
  unfold replaceById at hu2
  rw [List.mem_map] at hu2
  obtain ⟨v, hv, huv⟩ := hu2
  by_cases hb : (v.id == g.id) = true
  · rw [if_pos hb] at huv
    subst huv
    rw [hys, hyt]
    exact h.2.1 g hg
  · rw [if_neg hb] at huv
    subst huv
    exact h.2.1 v hv

theorem bInv_mgr_append (st : BuildState) (acc : Option Nat) (qt : String)
    (hqt : qt = "erc20" ∨ qt = "gas_refill")
    (hnew : ∀ m ∈ st.mgrs, m.queue_type = qt →
      (qt = "gas_refill" ∨ m.account = acc) → False) (h : BInv st) :
    BInv { st with nextMgrId := st.nextMgrId + 1,
                   mgrs := st.mgrs ++ [mkMgr st.nextMgrId 0 acc qt] } := by
  refine ⟨h.1, h.2.1, ?_, ?_⟩
  · intro m hm
    rcases List.mem_append.mp hm with h1 | h1
    · exact h.2.2.1 m h1
    · rw [List.mem_singleton.mp h1]
      exact ⟨hqt, rfl, rfl⟩
  · intro m hm m2 hm2 hq hdisj
    rcases List.mem_append.mp hm with h1 | h1 <;>
      rcases List.mem_append.mp hm2 with h2 | h2
    · exact h.2.2.2 m h1 m2 h2 hq hdisj
    · exfalso
      rw [List.mem_singleton.mp h2] at hq hdisj
      have hq2 : m.queue_type = qt := hq
      have hd2 : qt = "gas_refill" ∨ m.account = acc := by
        rcases hdisj with hd | hd
        · exact Or.inl (by rw [← hq2]; exact hd)
        · exact Or.inr hd
      exact hnew m h1 hq2 hd2
    · exfalso
      rw [List.mem_singleton.mp h1] at hq hdisj
      have hq2 : m2.queue_type = qt := hq.symm
      have hd2 : qt = "gas_refill" ∨ m2.account = acc := by
        rcases hdisj with hd | hd
        · exact Or.inl hd
        · exact Or.inr hd.symm
      exact hnew m2 h2 hq2 hd2
    · rw [List.mem_singleton.mp h1, List.mem_singleton.mp h2]

theorem bInv_mgr_ite (P : Prop) [Decidable P] (st : BuildState) (acc : Option Nat)
    (qt : String) (hqt : qt = "erc20" ∨ qt = "gas_refill")
    (hnew : ¬ P → ∀ m ∈ st.mgrs, m.queue_type = qt →
      (qt = "gas_refill" ∨ m.account = acc) → False) (h : BInv st) :
    BInv (if P then st else { st with nextMgrId := st.nextMgrId + 1, mgrs := st.mgrs ++ [mkMgr st.nextMgrId 0 acc qt] }) := by
  by_cases hp : P
  · rw [if_pos hp]
    exact h
  · rw [if_neg hp]
    exact bInv_mgr_append st acc qt hqt (hnew hp) h

theorem processCurrency_bInv (currencies : List String) (a : Nat) (c : String)
    (st : BuildState) (hc : c ∈ AVAILABLE_CURRENCIES) (h : BInv st) :
    BInv (processCurrency 0 currencies a st c) := by
  unfold processCurrency
  by_cases hc1 : c = "ETH"
  · rw [if_pos hc1]
    by_cases hc2 : currencies.filter (fun x => !(x ∈ NATIVE_CURRENCIES : Bool)) = []
    · rw [if_pos hc2]
      exact h
    · rw [if_neg hc2]
      exact bInv_append_tx st _ rfl (by simp [mkTx]) (by simp [mkTx]) h
  · rw [if_neg hc1]
    by_cases hc2 : c ∈ ERC20_CURRENCIES
    · rw [if_pos hc2]
      have step1 : ∀ st1 : BuildState, BInv st1 →
          BInv { st1 with nextTxId := st1.nextTxId + 1, txs := st1.txs ++ [mkTx st1.nextTxId 0 a c "waiting_for_gas_refill" "erc20" none] } :=
        fun st1 h1 => bInv_append_tx st1 _ rfl (by simp [mkTx]) (by simp [mkTx]) h1
      have step2 : ∀ st1 : BuildState, BInv st1 → BInv
          (if (st1.mgrs.any fun m => m.withdraw_cycle == 0 && m.account == some a
              && m.queue_type == "erc20") = true then st1
           else { st1 with nextMgrId := st1.nextMgrId + 1, mgrs := st1.mgrs ++ [mkMgr st1.nextMgrId 0 (some a) "erc20"] }) := by
        intro st1 h1
        refine bInv_mgr_ite _ st1 (some a) "erc20" (Or.inl rfl) ?_ h1
        intro hp m hm hq hd
        apply hp
        rw [List.any_eq_true]
        refine ⟨m, hm, ?_⟩
        have hcyc := (h1.2.2.1 m hm).2.2
        rcases hd with hd | hd
        · exact absurd hd (by decide)
        · simp [hcyc, hq, hd]
      have step3 : ∀ st2 : BuildState, BInv st2 → BInv
          (if (st2.mgrs.any fun m => m.withdraw_cycle == 0 &&
              m.queue_type == "gas_refill") = true then st2
           else { st2 with nextMgrId := st2.nextMgrId + 1, mgrs := st2.mgrs ++ [mkMgr st2.nextMgrId 0 none "gas_refill"] }) := by
        intro st2 h2
        refine bInv_mgr_ite _ st2 none "gas_refill" (Or.inr rfl) ?_ h2
        intro hp m hm hq _
        apply hp
        rw [List.any_eq_true]
        refine ⟨m, hm, ?_⟩
        have hcyc := (h2.2.2.1 m hm).2.2
        simp [hcyc, hq]
      cases hfind : st.txs.find? (gasLookup 0 a) with
      | some g =>
          exact step1 _ (step3 _ (step2 _
            (bInv_bump st g _ (List.mem_of_find?_eq_some hfind) rfl rfl rfl h)))
      | none =>
          exact step1 _ (step3 _ (step2 _
            (bInv_append_tx st _ rfl (by simp [mkTx]) (by simp [mkTx]) h)))
    · rw [if_neg hc2]
      have hcb : c = "BTC" := by
        simp only [AVAILABLE_CURRENCIES, NATIVE_CURRENCIES, ERC20_CURRENCIES,
          List.mem_append, List.mem_cons, List.mem_singleton,
          List.not_mem_nil, or_false] at hc hc2
        rcases hc with h1 | h1
        · rcases h1 with h2 | h2
          · exact absurd h2 hc1
          · exact h2
        · exact absurd h1 hc2
      subst hcb
      rw [if_pos (by decide : "BTC" ∈ NATIVE_CURRENCIES)]
      exact bInv_append_tx st _ rfl (by simp [mkTx]) (by simp [mkTx]) h

theorem processAccount_bInv (currencies : List String) (a : Nat)
    (st : BuildState) (hsup : ∀ c ∈ currencies, c ∈ AVAILABLE_CURRENCIES)
    (h : BInv st) : BInv (processAccount 0 currencies st a) := by
  unfold processAccount
  have key : ∀ cs : List String, (∀ c ∈ cs, c ∈ AVAILABLE_CURRENCIES) →
      ∀ st1 : BuildState, BInv st1 →
      BInv (cs.foldl (processCurrency 0 currencies a) st1) := by
    intro cs
    induction cs with
    | nil => intro _ st1 h1; exact h1
    | cons c cs ih =>
        intro hcs st1 h1
        rw [List.foldl_cons]
        exact ih (fun x hx => hcs x (List.mem_cons_of_mem c hx)) _
          (processCurrency_bInv currencies a c st1
            (hcs c (List.mem_cons_self c cs)) h1)
  exact key currencies hsup st h

theorem buildFrom_bInv (cs : List String) (accounts : List Nat)
    (hsup : ∀ c ∈ cs, c ∈ AVAILABLE_CURRENCIES) :
    BInv (accounts.foldl
      (processAccount 0 (sortBy (fun a b => decide (a ≤ b)) cs)) ⟨0, 0, [], []⟩) := by
  have hsorted : ∀ c ∈ sortBy (fun a b => decide (a ≤ b)) cs,
      c ∈ AVAILABLE_CURRENCIES := by
    intro c hcm
    exact hsup c ((mem_sortBy _ c cs).mp hcm)
  have h0 : BInv ⟨0, 0, [], []⟩ := by
    refine ⟨⟨fun u hu => absurd hu (List.not_mem_nil u), List.nodup_nil⟩, ?_, ?_, ?_⟩
    · intro t ht
      exact absurd ht (List.not_mem_nil t)
    · intro m hm
      exact absurd hm (List.not_mem_nil m)
    · intro m hm
      exact absurd hm (List.not_mem_nil m)
  induction accounts with
  | nil => exact h0
  | cons b bs ih =>
      rw [List.foldl_cons]
      have h1 := processAccount_bInv _ b ⟨0, 0, [], []⟩ hsorted h0
      -- general fold
      have key : ∀ (l : List Nat) (st1 : BuildState), BInv st1 →
          BInv (l.foldl (processAccount 0 (sortBy (fun a b => decide (a ≤ b)) cs)) st1) := by
        intro l
        induction l with
        | nil => intro st1 h2; exact h2
        | cons x xs ih2 =>
            intro st1 h2
            rw [List.foldl_cons]
            exact ih2 _ (processAccount_bInv _ x st1 hsorted h2)
      exact key bs _ h1

/-- Every successful cycle creation satisfies the system invariant. -/
theorem inv_init (cs : Option (List String)) (accounts : List Nat)
    (s : SysState) (h : create_withdraw_cycle cs accounts = Except.ok s) :
    Inv s := by
  have main : ∀ cs2 : List String, (∀ c ∈ cs2, c ∈ AVAILABLE_CURRENCIES) →
      Inv (buildFrom cs2 accounts) := by
    intro cs2 hsup
    have hb := buildFrom_bInv cs2 accounts hsup
    refine ⟨hb.1.2, ?_, ?_, ?_, ?_⟩
    · intro t ht
      exact (hb.2.1 t ht).2
    · intro m hm
      exact (hb.2.2.1 m hm).1
    · intro m hm m2 hm2 _ hq hd
      exact hb.2.2.2 m hm m2 hm2 hq hd
    · intro m hm t ht _ hp
      exact absurd hp (hb.2.1 t ht).1
  cases cs with
  | none =>
      have hs : s = buildFrom AVAILABLE_CURRENCIES accounts :=
        (Except.ok.inj h).symm
      subst hs
      exact main AVAILABLE_CURRENCIES (fun c hc => hc)
  | some cs1 =>
      unfold create_withdraw_cycle at h
      by_cases hn : cs1 = []
      · simp only [if_pos hn] at h
        have hs : s = buildFrom AVAILABLE_CURRENCIES accounts :=
          (Except.ok.inj h).symm
        subst hs
        exact main AVAILABLE_CURRENCIES (fun c hc => hc)
      · by_cases hall : cs1.dedup.all (fun c => decide (c ∈ AVAILABLE_CURRENCIES)) = true
        · simp only [if_neg hn, if_pos hall] at h
          have hs : s = buildFrom cs1.dedup accounts := (Except.ok.inj h).symm
          subst hs
          refine main cs1.dedup ?_
          intro c hc
          have hdec := (List.all_eq_true.mp hall) c hc
          exact of_decide_eq_true hdec
        · simp only [if_neg hn, if_neg hall] at h
          exact absurd h (by simp)

theorem inv_map_txs (s : SysState) (f : WithdrawTransaction → WithdrawTransaction)
    (hinv : Inv s)
    (hf : ∀ u ∈ s.txs, (f u).id = u.id ∧ (f u).tx_type = u.tx_type ∧
      (f u).withdraw_cycle = u.withdraw_cycle ∧ (f u).account = u.account ∧
      ((f u).status = "pending" → u.status = "pending" ∨
        (∀ m ∈ s.mgrs, watches m u → m.tx_to_process = some u.id)) ∧
      ((f u).tx_type = "erc20" → (f u).status = "created" →
        u.tx_type = "erc20" ∧ u.status = "created")) :
    Inv { s with txs := s.txs.map f } := by
  obtain ⟨hnd, herc, hqt, huniq, hwp⟩ := hinv
  refine ⟨?_, ?_, hqt, huniq, ?_⟩
  · show ((s.txs.map f).map (fun u => u.id)).Nodup
    rw [List.map_map]
    have hco : List.map ((fun u => u.id) ∘ f) s.txs =
        List.map (fun (u : WithdrawTransaction) => u.id) s.txs :=
      List.map_congr_left (fun u hu => (hf u hu).1)
    rw [hco]
    exact hnd
  · intro t ht hty hst
    rw [List.mem_map] at ht
    obtain ⟨u, hu, hut⟩ := ht
    subst hut
    obtain ⟨hA, hB⟩ := (hf u hu).2.2.2.2.2 hty hst
    exact absurd hB (herc u hu hA)
  · intro m hm t ht hw hp
    rw [List.mem_map] at ht
    obtain ⟨u, hu, hut⟩ := ht
    subst hut
    obtain ⟨hu1, hu2, hu3, hu4, hu5, _⟩ := hf u hu
    have hwu : watches m u := by
      unfold watches at hw ⊢
      refine ⟨by rw [← hu3]; exact hw.1, by rw [← hu2]; exact hw.2.1, ?_⟩
      intro hq
      have hacc := hw.2.2 hq
      rw [hu4] at hacc
      exact hacc
    rw [hu1]
    rcases hu5 hp with hup | hauth
    · exact hwp m hm u hu hwu hup
    · exact hauth m hm hwu

theorem inv_replace_self (s : SysState) (t w : WithdrawTransaction)
    (hinv : Inv s) (ht : t ∈ s.txs)
    (hw1 : w.id = t.id) (hw2 : w.tx_type = t.tx_type)
    (hw3 : w.withdraw_cycle = t.withdraw_cycle) (hw4 : w.account = t.account)
    (hwp : w.status = "pending" → t.status = "pending" ∨
      (∀ m ∈ s.mgrs, watches m t → m.tx_to_process = some t.id))
    (hwc : w.tx_type = "erc20" → w.status = "created" →
      t.tx_type = "erc20" ∧ t.status = "created") :
    Inv { s with txs := replaceById s.txs t.id w } := by
  apply inv_map_txs s (fun u => if u.id == t.id then w else u) hinv
  intro u hu
  by_cases hb : (u.id == t.id) = true
  · have hut : u = t := txid_inj hinv.1 hu ht (beq_iff_eq.mp hb)
    subst hut
    rw [if_pos hb]
    exact ⟨hw1, hw2, hw3, hw4, hwp, hwc⟩
  · rw [if_neg hb]
    exact ⟨rfl, rfl, rfl, rfl, fun hp => Or.inl hp, fun a b => ⟨a, b⟩⟩

theorem replaceById_map (l : List WithdrawTransaction)
    (f1 : WithdrawTransaction → WithdrawTransaction) (i : Nat)
    (y : WithdrawTransaction) :
    replaceById (l.map f1) i y =
      l.map (fun u => if (f1 u).id == i then y else f1 u) := by
  unfold replaceById
  rw [List.map_map]
  rfl

theorem replaceById_map_map (l : List WithdrawTransaction)
    (f1 f2 : WithdrawTransaction → WithdrawTransaction) (i : Nat)
    (y : WithdrawTransaction) :
    replaceById ((l.map f1).map f2) i y =
      l.map (fun u => if (f2 (f1 u)).id == i then y else f2 (f1 u)) := by
  unfold replaceById
  rw [List.map_map, List.map_map]
  rfl

theorem native_not_watched (s : SysState) (hinv : Inv s)
    (t : WithdrawTransaction) (h1 : t.tx_type ≠ "erc20")
    (h2 : t.tx_type ≠ "gas_refill") :
    ∀ m ∈ s.mgrs, watches m t → m.tx_to_process = some t.id := by
  intro m hm hw
  exfalso
  rcases hinv.2.2.1 m hm with hq | hq
  · exact h1 (hw.2.1.trans hq)
  · exact h2 (hw.2.1.trans hq)

theorem btc_cases (t : WithdrawTransaction) (ext : Ext) :
    (process_withdraw_btc t ext).1 = t ∨
    (process_withdraw_btc t ext).1 = { t with status := "skipped" } ∨
    (∃ h, (process_withdraw_btc t ext).1 =
      { t with tx_hash := some h, status := "pending",
               relayed_at := some ext.now }) ∨
    (∃ e, (process_withdraw_btc t ext).1 =
      { t with status := "failed", error_message := e }) := by
  unfold process_withdraw_btc
  repeat' split
  all_goals try dsimp only
  repeat' split
  all_goals first
    | exact Or.inl rfl
    | exact Or.inr (Or.inl rfl)
    | exact Or.inr (Or.inr (Or.inl ⟨_, rfl⟩))
    | exact Or.inr (Or.inr (Or.inr ⟨_, rfl⟩))

theorem eth_cases (t : WithdrawTransaction) (txs : List WithdrawTransaction)
    (ext : Ext) :
    process_withdraw_eth t txs ext = t ∨
    process_withdraw_eth t txs ext = { t with status := "skipped" } ∨
    (∃ h, process_withdraw_eth t txs ext =
      { t with status := "pending", tx_hash := some h,
               relayed_at := some ext.now }) := by
  unfold process_withdraw_eth
  repeat' split
  all_goals try dsimp only
  repeat' split
  all_goals first
    | exact Or.inl rfl
    | exact Or.inr (Or.inl rfl)
    | exact Or.inr (Or.inr ⟨_, rfl⟩)

theorem confirm_eth_cases (t : WithdrawTransaction) (ext : Ext) :
    tx_confirm_eth_erc20 t ext = t ∨
    tx_confirm_eth_erc20 t ext = { t with status := "sent_tx_not_found" } ∨
    tx_confirm_eth_erc20 t ext =
      { t with status := "failed", error_message := "reverted" } ∨
    tx_confirm_eth_erc20 t ext = { t with status := "completed" } := by
  unfold tx_confirm_eth_erc20 check_confirmation_time
  repeat' split
  all_goals try dsimp only
  repeat' split
  all_goals first
    | exact Or.inl rfl
    | exact Or.inr (Or.inl rfl)
    | exact Or.inr (Or.inr (Or.inl rfl))
    | exact Or.inr (Or.inr (Or.inr rfl))

theorem confirm_btc_cases (t : WithdrawTransaction) (ext : Ext) :
    tx_confirm_btc t ext = t ∨
    tx_confirm_btc t ext = { t with status := "sent_tx_not_found" } ∨
    tx_confirm_btc t ext = { t with status := "completed" } := by
  unfold tx_confirm_btc check_confirmation_time
  repeat' split
  all_goals try dsimp only
  repeat' split
  all_goals first
    | exact Or.inl rfl
    | exact Or.inr (Or.inl rfl)
    | exact Or.inr (Or.inr rfl)

theorem erc20_cases (t : WithdrawTransaction) (txs : List WithdrawTransaction)
    (mgrs : List TransactionManager) (ext : Ext) :
    (process_withdraw_erc20 t txs mgrs ext).1 = t ∨
    (process_withdraw_erc20 t txs mgrs ext).1 = { t with status := "skipped" } ∨
    (process_withdraw_erc20 t txs mgrs ext).1 =
      { t with status := "waiting_for_erc20_transfers" } ∨
    (∃ h, (process_withdraw_erc20 t txs mgrs ext).1 =
      { t with tx_hash := some h, status := "pending",
               relayed_at := some ext.now }) ∨
    (∃ e, (process_withdraw_erc20 t txs mgrs ext).1 =
      { t with status := "failed", error_message := e }) := by
  unfold process_withdraw_erc20
  repeat' split
  all_goals try dsimp only
  repeat' split
  all_goals first
    | exact Or.inl rfl
    | exact Or.inr (Or.inl rfl)
    | exact Or.inr (Or.inr (Or.inl rfl))
    | exact Or.inr (Or.inr (Or.inr (Or.inl ⟨_, rfl⟩)))
    | exact Or.inr (Or.inr (Or.inr (Or.inr ⟨_, rfl⟩)))

theorem erc20_queue_auth (t : WithdrawTransaction)
    (txs : List WithdrawTransaction) (mgrs : List TransactionManager)
    (ext : Ext) (hst : t.status ≠ "created")
    (h : (process_withdraw_erc20 t txs mgrs ext).2 = true ∨
      ((process_withdraw_erc20 t txs mgrs ext).1.status = "pending" ∧
        t.status ≠ "pending")) :
    ∃ m0 ∈ mgrs, m0.tx_to_process = some t.id ∧
      m0.withdraw_cycle = t.withdraw_cycle ∧ m0.queue_type = t.tx_type ∧
      m0.account = some t.account := by
  unfold process_withdraw_erc20 at h
  repeat' (first | split at h | dsimp only at h)
  all_goals
    try (rcases h with hf | hpp
         · exact (Bool.false_ne_true hf).elim
         · first
             | exact absurd hpp.1 hpp.2
             | simp at hpp)
  all_goals {
    have hdisj : t.status = "waiting_for_gas_refill" ∨
        t.status = "waiting_for_erc20_transfers" := by
      have hel : ¬ t.status ∉ erc20_processing_statuses := by assumption
      have hmem := not_not.mp hel
      simp only [erc20_processing_statuses, List.mem_cons,
        List.not_mem_nil, or_false] at hmem
      rcases hmem with h1 | h1 | h1
      · exact absurd h1 hst
      · exact Or.inl h1
      · exact Or.inr h1
    have hq : ¬ ((t.status = "waiting_for_gas_refill" ∨
        t.status = "waiting_for_erc20_transfers") ∧
        (List.filter (fun m => m.tx_to_process == some t.id &&
          m.withdraw_cycle == t.withdraw_cycle &&
          m.queue_type == t.tx_type &&
          m.account == some t.account) mgrs).isEmpty = true) := by assumption
    have hne : (List.filter (fun m => m.tx_to_process == some t.id &&
        m.withdraw_cycle == t.withdraw_cycle &&
        m.queue_type == t.tx_type &&
        m.account == some t.account) mgrs).isEmpty = false := by
      cases he : (List.filter (fun m => m.tx_to_process == some t.id &&
          m.withdraw_cycle == t.withdraw_cycle &&
          m.queue_type == t.tx_type &&
          m.account == some t.account) mgrs).isEmpty
      · rfl
      · exact absurd ⟨hdisj, he⟩ hq
    cases hfl : List.filter (fun m => m.tx_to_process == some t.id &&
        m.withdraw_cycle == t.withdraw_cycle &&
        m.queue_type == t.tx_type &&
        m.account == some t.account) mgrs with
    | nil => rw [hfl] at hne; simp at hne
    | cons m0 rest =>
        have hm0 : m0 ∈ List.filter (fun m => m.tx_to_process == some t.id &&
            m.withdraw_cycle == t.withdraw_cycle &&
            m.queue_type == t.tx_type &&
            m.account == some t.account) mgrs := by
          rw [hfl]
          exact List.mem_cons_self m0 rest
        obtain ⟨hmem, hp⟩ := List.mem_filter.mp hm0
        simp only [Bool.and_eq_true, beq_iff_eq] at hp
        exact ⟨m0, hmem, hp.1.1.1, hp.1.1.2, hp.1.2, hp.2⟩ }

theorem inv_replace_mapped (s : SysState) (t y : WithdrawTransaction)
    (f : WithdrawTransaction → WithdrawTransaction)
    (hinv : Inv s) (ht : t ∈ s.txs)
    (hf : ∀ u, (f u).id = u.id ∧ (f u).tx_type = u.tx_type ∧
      (f u).withdraw_cycle = u.withdraw_cycle ∧ (f u).account = u.account ∧
      ((f u).status = "pending" → u.status = "pending") ∧
      ((f u).status = "created" → u.status = "created"))
    (hy1 : y.id = t.id) (hy2 : y.tx_type = t.tx_type)
    (hy3 : y.withdraw_cycle = t.withdraw_cycle) (hy4 : y.account = t.account)
    (hyp : y.status = "pending" → t.status = "pending" ∨
      (∀ m ∈ s.mgrs, watches m t → m.tx_to_process = some t.id))
    (hyc : y.tx_type = "erc20" → y.status = "created" →
      t.tx_type = "erc20" ∧ t.status = "created") :
    Inv { s with txs := replaceById (s.txs.map f) t.id y } := by
  rw [replaceById_map]
  apply inv_map_txs s (fun u => if (f u).id == t.id then y else f u) hinv
  intro u hu
  by_cases hb : ((f u).id == t.id) = true
  · rw [if_pos hb]
    have hut : u = t :=
      txid_inj hinv.1 hu ht (by rw [← (hf u).1]; exact beq_iff_eq.mp hb)
    subst hut
    exact ⟨hy1, hy2, hy3, hy4, hyp, hyc⟩
  · rw [if_neg hb]
    obtain ⟨h1, h2, h3, h4, h5, h6⟩ := hf u
    exact ⟨h1, h2, h3, h4, fun hp => Or.inl (h5 hp),
      fun he hc => ⟨by rw [← h2]; exact he, h6 hc⟩⟩

theorem inv_gas_refill (s : SysState) (t : WithdrawTransaction) (ext : Ext)
    (hinv : Inv s) (htm : t ∈ s.txs) (hty : t.tx_type = "gas_refill") :
    Inv { s with txs := (process_gas_refill t s.txs s.mgrs ext).1 } := by
  unfold process_gas_refill
  split
  · exact hinv
  split
  · exact hinv
  split
  · dsimp only
    split <;> exact hinv
  split
  · dsimp only
    split
    · exact hinv
    · split
      · rw [List.map_map]
        refine inv_replace_mapped s t _ _ hinv htm ?_ rfl rfl rfl rfl ?_ ?_
        · intro u
          by_cases hs : isRefillSibling t u = true
          · have hs1 : isRefillSibling t { u with
                amount := some (ext.token_balance u.currency),
                gas_price_erc20 := some ext.gas_price } = true := hs
            dsimp only [Function.comp]
            rw [if_pos hs, if_pos hs1]
            refine ⟨rfl, rfl, rfl, rfl, ?_, ?_⟩
            · intro hp
              simp at hp
            · intro hc
              simp at hc
          · dsimp only [Function.comp]
            rw [if_neg hs, if_neg hs]
            exact ⟨rfl, rfl, rfl, rfl, fun hp => hp, fun hc => hc⟩
        · intro hp
          simp at hp
        · intro he hc
          simp at hc
      · split
        · refine inv_replace_mapped s t _ _ hinv htm ?_ rfl rfl rfl rfl ?_ ?_
          · intro u
            by_cases hs : isRefillSibling t u = true
            · rw [if_pos hs]
              exact ⟨rfl, rfl, rfl, rfl, fun hp => hp, fun hc => hc⟩
            · rw [if_neg hs]
              exact ⟨rfl, rfl, rfl, rfl, fun hp => hp, fun hc => hc⟩
          · intro hp
            simp at hp
          · intro he hc
            simp at hc
        · refine inv_replace_mapped s t _ _ hinv htm ?_ rfl rfl rfl rfl ?_ ?_
          · intro u
            by_cases hs : isRefillSibling t u = true
            · rw [if_pos hs]
              exact ⟨rfl, rfl, rfl, rfl, fun hp => hp, fun hc => hc⟩
            · rw [if_neg hs]
              exact ⟨rfl, rfl, rfl, rfl, fun hp => hp, fun hc => hc⟩
          · intro hp
            right
            intro m hm hw
            have hq : ¬ ((List.filter (fun m2 =>
                m2.tx_to_process == some t.id &&
                m2.withdraw_cycle == t.withdraw_cycle &&
                m2.queue_type == t.tx_type) s.mgrs).isEmpty = true) := by
              assumption
            cases hfl : List.filter (fun m2 =>
                m2.tx_to_process == some t.id &&
                m2.withdraw_cycle == t.withdraw_cycle &&
                m2.queue_type == t.tx_type) s.mgrs with
            | nil =>
                rw [hfl] at hq
                simp at hq
            | cons m0 rest =>
                have hm0 : m0 ∈ List.filter (fun m2 =>
                    m2.tx_to_process == some t.id &&
                    m2.withdraw_cycle == t.withdraw_cycle &&
                    m2.queue_type == t.tx_type) s.mgrs := by
                  rw [hfl]
                  exact List.mem_cons_self m0 rest
                obtain ⟨hmem, hp0⟩ := List.mem_filter.mp hm0
                simp only [Bool.and_eq_true, beq_iff_eq] at hp0
                have hcyc : m.withdraw_cycle = m0.withdraw_cycle := by
                  rw [← hw.1, hp0.1.2]
                have hqt2 : m.queue_type = m0.queue_type := by
                  rw [← hw.2.1, hp0.2]
                have hgas : m.queue_type = "gas_refill" := by
                  rw [← hw.2.1]
                  exact hty
                have hme : m = m0 :=
                  hinv.2.2.2.1 m hm m0 hmem hcyc hqt2 (Or.inl hgas)
                rw [hme]
                exact hp0.1.1
          · intro he hc
            simp at hc
  · dsimp only
    split
    · exact hinv
    · split
      · rw [List.map_map]
        refine inv_replace_mapped s t _ _ hinv htm ?_ rfl rfl rfl rfl ?_ ?_
        · intro u
          by_cases hs : isRefillSibling t u = true
          · have hs1 : isRefillSibling t { u with
                amount := some (ext.token_balance u.currency),
                gas_price_erc20 := some ext.gas_price } = true := hs
            dsimp only [Function.comp]
            rw [if_pos hs, if_pos hs1]
            refine ⟨rfl, rfl, rfl, rfl, ?_, ?_⟩
            · intro hp
              simp at hp
            · intro hc
              simp at hc
          · dsimp only [Function.comp]
            rw [if_neg hs, if_neg hs]
            exact ⟨rfl, rfl, rfl, rfl, fun hp => hp, fun hc => hc⟩
        · intro hp
          simp at hp
        · intro he hc
          simp at hc
      · split
        · refine inv_replace_mapped s t _ _ hinv htm ?_ rfl rfl rfl rfl ?_ ?_
          · intro u
            by_cases hs : isRefillSibling t u = true
            · rw [if_pos hs]
              exact ⟨rfl, rfl, rfl, rfl, fun hp => hp, fun hc => hc⟩
            · rw [if_neg hs]
              exact ⟨rfl, rfl, rfl, rfl, fun hp => hp, fun hc => hc⟩
          · intro hp
            simp at hp
          · intro he hc
            simp at hc
        · refine inv_replace_mapped s t _ _ hinv htm ?_ rfl rfl rfl rfl ?_ ?_
          · intro u
            by_cases hs : isRefillSibling t u = true
            · rw [if_pos hs]
              exact ⟨rfl, rfl, rfl, rfl, fun hp => hp, fun hc => hc⟩
            · rw [if_neg hs]
              exact ⟨rfl, rfl, rfl, rfl, fun hp => hp, fun hc => hc⟩
          · intro hp
            simp at hp
          · intro he hc
            simp at hc

theorem inv_process (s : SysState) (i : Nat) (ext : Ext) (hinv : Inv s) :
    Inv (process_selector s i ext) := by
  unfold process_selector
  cases hfind : s.txs.find? (fun u => u.id == i) with
  | none => exact hinv
  | some t =>
      dsimp only
      have htm : t ∈ s.txs := List.mem_of_find?_eq_some hfind
      by_cases hgas : t.tx_type = "gas_refill"
      · rw [if_pos hgas]
        exact inv_gas_refill s t ext hinv htm hgas
      · rw [if_neg hgas]
        by_cases herc : t.tx_type = "erc20"
        · rw [if_pos herc]
          have hst : t.status ≠ "created" := hinv.2.1 t htm herc
          rcases erc20_cases t s.txs s.mgrs ext with hc | hc | hc | ⟨hh, hc⟩ | ⟨e, hc⟩
          · rw [hc]
            exact inv_replace_self s t t hinv htm rfl rfl rfl rfl
              (fun hp => Or.inl hp) (fun a b => ⟨a, b⟩)
          · rw [hc]
            refine inv_replace_self s t _ hinv htm rfl rfl rfl rfl ?_ ?_
            · intro hp
              simp at hp
            · intro he hc2
              simp at hc2
          · rw [hc]
            refine inv_replace_self s t _ hinv htm rfl rfl rfl rfl ?_ ?_
            · intro hp
              simp at hp
            · intro he hc2
              simp at hc2
          · rw [hc]
            refine inv_replace_self s t _ hinv htm rfl rfl rfl rfl ?_ ?_
            · intro hp2
              by_cases hpend : t.status = "pending"
              · exact Or.inl hpend
              · right
                intro m hm hw
                obtain ⟨m0, hmem, hm1, hm2, hm3, hm4⟩ :=
                  erc20_queue_auth t s.txs s.mgrs ext hst
                    (Or.inr ⟨by rw [hc], hpend⟩)
                have hcyc : m.withdraw_cycle = m0.withdraw_cycle := by
                  rw [← hw.1, hm2]
                have hqt : m.queue_type = m0.queue_type := by
                  rw [← hw.2.1, hm3]
                have hqe : m.queue_type = "erc20" := by
                  rw [← hw.2.1]
                  exact herc
                have hacc : m.account = m0.account := by
                  rw [hw.2.2 hqe, hm4]
                have hme : m = m0 :=
                  hinv.2.2.2.1 m hm m0 hmem hcyc hqt (Or.inr hacc)
                rw [hme]
                exact hm1
            · intro he hc2
              simp at hc2
          · rw [hc]
            refine inv_replace_self s t _ hinv htm rfl rfl rfl rfl ?_ ?_
            · intro hp
              simp at hp
            · intro he hc2
              simp at hc2
        · rw [if_neg herc]
          by_cases hbtc : t.currency = "BTC"
          · rw [if_pos hbtc]
            rcases btc_cases t ext with hc | hc | ⟨hh, hc⟩ | ⟨e, hc⟩
            · rw [hc]
              exact inv_replace_self s t t hinv htm rfl rfl rfl rfl
                (fun hp => Or.inl hp) (fun a b => ⟨a, b⟩)
            · rw [hc]
              refine inv_replace_self s t _ hinv htm rfl rfl rfl rfl ?_ ?_
              · intro hp
                simp at hp
              · intro he hc2
                simp at hc2
            · rw [hc]
              refine inv_replace_self s t _ hinv htm rfl rfl rfl rfl ?_ ?_
              · intro hp
                exact Or.inr (native_not_watched s hinv t herc hgas)
              · intro he hc2
                simp at hc2
            · rw [hc]
              refine inv_replace_self s t _ hinv htm rfl rfl rfl rfl ?_ ?_
              · intro hp
                simp at hp
              · intro he hc2
                simp at hc2
          · rw [if_neg hbtc]
            by_cases heth : t.currency = "ETH"
            · rw [if_pos heth]
              rcases eth_cases t s.txs ext with hc | hc | ⟨hh, hc⟩
              · rw [hc]
                exact inv_replace_self s t t hinv htm rfl rfl rfl rfl
                  (fun hp => Or.inl hp) (fun a b => ⟨a, b⟩)
              · rw [hc]
                refine inv_replace_self s t _ hinv htm rfl rfl rfl rfl ?_ ?_
                · intro hp
                  simp at hp
                · intro he hc2
                  simp at hc2
              · rw [hc]
                refine inv_replace_self s t _ hinv htm rfl rfl rfl rfl ?_ ?_
                · intro hp
                  exact Or.inr (native_not_watched s hinv t herc hgas)
                · intro he hc2
                  simp at hc2
            · rw [if_neg heth]
              exact hinv

theorem inv_confirm (s : SysState) (i : Nat) (ext : Ext) (hinv : Inv s) :
    Inv (confirm_selector s i ext) := by
  unfold confirm_selector
  cases hfind : s.txs.find? (fun u => u.id == i) with
  | none => exact hinv
  | some t =>
      dsimp only
      have htm : t ∈ s.txs := List.mem_of_find?_eq_some hfind
      by_cases hcond : t.currency = "ETH" ∨ t.tx_type = "erc20"
      · rw [if_pos hcond]
        rcases confirm_eth_cases t ext with hc | hc | hc | hc
        · rw [hc]
          exact inv_replace_self s t t hinv htm rfl rfl rfl rfl
            (fun hp => Or.inl hp) (fun a b => ⟨a, b⟩)
        · rw [hc]
          refine inv_replace_self s t _ hinv htm rfl rfl rfl rfl ?_ ?_
          · intro hp
            simp at hp
          · intro he hc2
            simp at hc2
        · rw [hc]
          refine inv_replace_self s t _ hinv htm rfl rfl rfl rfl ?_ ?_
          · intro hp
            simp at hp
          · intro he hc2
            simp at hc2
        · rw [hc]
          refine inv_replace_self s t _ hinv htm rfl rfl rfl rfl ?_ ?_
          · intro hp
            simp at hp
          · intro he hc2
            simp at hc2
      · rw [if_neg hcond]
        by_cases hbtc : t.currency = "BTC"
        · rw [if_pos hbtc]
          rcases confirm_btc_cases t ext with hc | hc | hc
          · rw [hc]
            exact inv_replace_self s t t hinv htm rfl rfl rfl rfl
              (fun hp => Or.inl hp) (fun a b => ⟨a, b⟩)
          · rw [hc]
            refine inv_replace_self s t _ hinv htm rfl rfl rfl rfl ?_ ?_
            · intro hp
              simp at hp
            · intro he hc2
              simp at hc2
          · rw [hc]
            refine inv_replace_self s t _ hinv htm rfl rfl rfl rfl ?_ ?_
            · intro hp
              simp at hp
            · intro he hc2
              simp at hc2
        · rw [if_neg hbtc]
          exact hinv

theorem set_next_fields (m : TransactionManager)
    (txs : List WithdrawTransaction) :
    (set_next_tx m txs).id = m.id ∧
    (set_next_tx m txs).withdraw_cycle = m.withdraw_cycle ∧
    (set_next_tx m txs).queue_type = m.queue_type ∧
    (set_next_tx m txs).account = m.account := by
  unfold set_next_tx
  repeat' split
  all_goals exact ⟨rfl, rfl, rfl, rfl⟩

theorem set_next_keeps_current (m : TransactionManager)
    (txs : List WithdrawTransaction) (t : WithdrawTransaction)
    (hnd : (txs.map (fun u => u.id)).Nodup) (ht : t ∈ txs)
    (hcur : m.tx_to_process = some t.id) (hp : t.status = "pending") :
    set_next_tx m txs = m := by
  have hfind := find?_id_unique txs t hnd ht
  have hfin : is_current_tx_finished m txs = false := by
    unfold is_current_tx_finished
    rw [hcur]
    dsimp only
    rw [hfind]
    dsimp only
    rw [hp]
    decide
  by_cases hc : m.completed
  · unfold set_next_tx
    rw [if_pos hc]
  · unfold set_next_tx
    rw [if_neg hc, if_pos (by rw [hfin]; exact Bool.false_ne_true)]

theorem inv_set_next (s : SysState) (j : Nat) (hinv : Inv s) :
    Inv (step_set_next s j) := by
  unfold step_set_next
  cases hfind : s.mgrs.find? (fun m => m.id == j) with
  | none => exact hinv
  | some m =>
      have hmm : m ∈ s.mgrs := List.mem_of_find?_eq_some hfind
      obtain ⟨hnd, herc, hqt, huniq, hwp⟩ := hinv
      have hmid : m.id = j := by
        have := List.find?_some hfind
        exact beq_iff_eq.mp this
      refine ⟨hnd, herc, ?_, ?_, ?_⟩
      · intro m2 hm2
        rw [List.mem_map] at hm2
        obtain ⟨u, hu, hum⟩ := hm2
        subst hum
        by_cases hb : (u.id == j) = true
        · rw [if_pos hb, (set_next_fields m s.txs).2.2.1]
          exact hqt m hmm
        · rw [if_neg hb]
          exact hqt u hu
      · intro m1 hm1 m2 hm2 hcyc hq hga
        rw [List.mem_map] at hm1 hm2
        obtain ⟨u1, hu1, he1⟩ := hm1
        obtain ⟨u2, hu2, he2⟩ := hm2
        by_cases hb1 : (u1.id == j) = true
        · by_cases hb2 : (u2.id == j) = true
          · rw [← he1, ← he2, if_pos hb1, if_pos hb2]
          · rw [← he1, if_pos hb1] at hcyc hq hga ⊢
            rw [← he2, if_neg hb2] at hcyc hq hga ⊢
            obtain ⟨hf1, hf2, hf3, hf4⟩ := set_next_fields m s.txs
            rw [hf2] at hcyc
            rw [hf3] at hq hga
            rw [hf4] at hga
            have hmu : m = u2 := huniq m hmm u2 hu2 hcyc hq hga
            exfalso
            apply hb2
            rw [← hmu, hmid]
            exact beq_self_eq_true j
        · by_cases hb2 : (u2.id == j) = true
          · rw [← he1, if_neg hb1] at hcyc hq hga ⊢
            rw [← he2, if_pos hb2] at hcyc hq hga ⊢
            obtain ⟨hf1, hf2, hf3, hf4⟩ := set_next_fields m s.txs
            rw [hf2] at hcyc
            rw [hf3] at hq
            rw [hf4] at hga
            have hmu : u1 = m := huniq u1 hu1 m hmm hcyc hq hga
            exfalso
            apply hb1
            rw [hmu, hmid]
            exact beq_self_eq_true j
          · rw [← he1, if_neg hb1] at hcyc hq hga ⊢
            rw [← he2, if_neg hb2] at hcyc hq hga ⊢
            exact huniq u1 hu1 u2 hu2 hcyc hq hga
      · intro m2 hm2 t ht hw hp
        rw [List.mem_map] at hm2
        obtain ⟨u, hu, hum⟩ := hm2
        subst hum
        by_cases hb : (u.id == j) = true
        · rw [if_pos hb] at hw ⊢
          obtain ⟨hf1, hf2, hf3, hf4⟩ := set_next_fields m s.txs
          have hwm : watches m t := by
            refine ⟨?_, ?_, ?_⟩
            · rw [← hf2]
              exact hw.1
            · rw [← hf3]
              exact hw.2.1
            · intro hqe
              rw [← hf4]
              exact hw.2.2 (by rw [hf3]; exact hqe)
          have hcur := hwp m hmm t ht hwm hp
          rw [set_next_keeps_current m s.txs t hnd ht hcur hp]
          exact hcur
        · rw [if_neg hb] at hw ⊢
          exact hwp u hu t ht hw hp

theorem inv_complete (s : SysState) (k : Nat) (hinv : Inv s) :
    Inv (step_check_completion s k) := by
  unfold step_check_completion
  cases hfind : s.cycles.find? (fun c => c.id == k) with
  | none => exact hinv
  | some c => exact hinv

theorem inv_step (s s2 : SysState) (hstep : Step s s2) (hinv : Inv s) :
    Inv s2 := by
  cases hstep with
  | process i ext => exact inv_process s i ext hinv
  | confirm i ext => exact inv_confirm s i ext hinv
  | next j => exact inv_set_next s j hinv
  | complete k => exact inv_complete s k hinv

theorem inv_reachable (s : SysState) (hr : Reachable s) : Inv s := by
  induction hr with
  | init cs accounts s h => exact inv_init cs accounts s h
  | step s s2 hs hstep ih => exact inv_step s s2 hstep ih

/-- C1: queue serialization. In every state reachable from a successful
cycle creation under the periodic driver: (a) each queue entry
(TransactionManager) has at most one PENDING transaction among the
withdrawal transactions it watches; (b) set_next_tx never changes the
queue entry while its currently authorized transaction is PENDING; and
(c) a token (ERC20) withdrawal reaches a broadcast attempt only when a
queue entry holds it as its currently authorized (tx_to_process)
transaction. -/
theorem c1_queue_serialization (s : SysState) (hr : Reachable s) :
    (∀ m ∈ s.mgrs, ∀ t ∈ s.txs, ∀ u ∈ s.txs, watches m t → watches m u →
      t.status = "pending" → u.status = "pending" → t = u) ∧
    (∀ m ∈ s.mgrs, ∀ t ∈ s.txs, m.tx_to_process = some t.id →
      t.status = "pending" → set_next_tx m s.txs = m) ∧
    (∀ t ∈ s.txs, ∀ ext : Ext, t.tx_type = "erc20" →
      (process_withdraw_erc20 t s.txs s.mgrs ext).2 = true →
      ∃ m0 ∈ s.mgrs, watches m0 t ∧ m0.tx_to_process = some t.id) := by
  have hinv := inv_reachable s hr
  refine ⟨?_, ?_, ?_⟩
  · intro m hm t ht u hu hwt hwu hpt hpu
    have h1 := hinv.2.2.2.2 m hm t ht hwt hpt
    have h2 := hinv.2.2.2.2 m hm u hu hwu hpu
    rw [h1] at h2
    exact txid_inj hinv.1 ht hu (Option.some.inj h2)
  · intro m hm t ht hcur hp
    exact set_next_keeps_current m s.txs t hinv.1 ht hcur hp
  · intro t ht ext hty hflag
    have hst : t.status ≠ "created" := hinv.2.1 t ht hty
    obtain ⟨m0, hmem, h1, h2, h3, h4⟩ :=
      erc20_queue_auth t s.txs s.mgrs ext hst (Or.inl hflag)
    exact ⟨m0, hmem, ⟨h2.symm, h3.symm, fun _ => h4⟩, h1⟩

/-- C1 witness: in the concrete demonstration run the gas queue entry
authorizes the refill, the refill is PENDING, and the theorem yields that
set_next_tx leaves the queue entry unchanged. -/
theorem c1_witness :
    gasQueueDemo ∈ demoState.mgrs ∧ gasTxDemo ∈ demoState.txs ∧
    gasQueueDemo.tx_to_process = some gasTxDemo.id ∧
    gasTxDemo.status = "pending" ∧
    set_next_tx gasQueueDemo demoState.txs = gasQueueDemo := by
  have hr : Reachable demoState :=
    Reachable.step _ _
      (Reachable.step _ _
        (Reachable.init (some ["USDT"]) [0] (buildFrom ["USDT"] [0]) (by rfl))
        (Step.next (buildFrom ["USDT"] [0]) 1))
      (Step.process (step_set_next (buildFrom ["USDT"] [0]) 1) 0 extGasOk)
  obtain ⟨-, h2, -⟩ := c1_queue_serialization demoState hr
  refine ⟨by decide, by decide, by decide, by decide, ?_⟩
  exact h2 gasQueueDemo (by decide) gasTxDemo (by decide) (by decide) (by decide)

end GoldCrowdsale
